import Mathlib

set_option maxHeartbeats 1000000

namespace Paperflow

/-- Canonical document record, the output shape of normalize_document in
init_ocr_tracking_db.py: id is mandatory, the other fields are defaulted
during normalization (page_count and modified stay optional). -/
structure Doc where
  id : Nat
  title : String
  mime_type : String
  original_filename : String
  archive_filename : String
  page_count : Option Int
  modified : Option String
  content_length : Int
deriving DecidableEq, Repr

/-- The seven-field payload that stable_fingerprint serializes and hashes.
The SHA-256 step is modeled by the field tuple itself: the code only ever
compares fingerprints for equality, and equal payloads give equal hashes. -/
structure Fp where
  title : String
  mime_type : String
  original_filename : String
  archive_filename : String
  page_count : Option Int
  modified : Option String
  content_length : Int
deriving DecidableEq, Repr

/-- stable_fingerprint from init_ocr_tracking_db.py: the payload is built from
title, mime_type, original_filename, archive_filename, page_count, modified
and content_length (string fields defaulted to empty, content_length to 0,
which is the identity on an already-normalized Doc). -/
def stable_fingerprint (d : Doc) : Fp :=
  { title := d.title
    mime_type := d.mime_type
    original_filename := d.original_filename
    archive_filename := d.archive_filename
    page_count := d.page_count
    modified := d.modified
    content_length := d.content_length }

/-- A row of the tracked_documents table. -/
structure TrackedRow where
  first_seen_run_id : Nat
  last_seen_run_id : Nat
  first_seen_at : String
  last_seen_at : String
  is_active : Bool
  deleted_at : Option String
  deleted_in_run_id : Option Nat
  title : String
  mime_type : String
  original_filename : String
  archive_filename : String
  page_count : Option Int
  modified : Option String
  content_length : Int
  current_fingerprint : Fp
deriving DecidableEq, Repr

/-- A row of the document_classifications table
(UNIQUE(run_id, paperless_id) is enforced by insertClass below). -/
structure ClassRow where
  run_id : Nat
  paperless_id : Nat
  observed_at : String
  classification : String
  changed_fields : List String
  previous_fingerprint : Option Fp
  new_fingerprint : Option Fp
  title : String
  mime_type : String
  original_filename : String
  archive_filename : String
  page_count : Option Int
  modified : Option String
  content_length : Int
deriving DecidableEq, Repr

/-- A row of the runs table (only the fields the claims touch). -/
structure RunRow where
  id : Nat
  started_at : String
  completed_at : Option String
  run_type : String
  total_documents : Nat
  new_documents : Nat
  changed_documents : Nat
  unchanged_documents : Nat
  missing_documents : Nat
deriving DecidableEq, Repr

/-- The tracking database: tracked_documents is an association list keyed by
paperless_id, runs and document_classifications are append-only lists. -/
structure DB where
  runs : List RunRow
  tracked : List (Nat × TrackedRow)
  classes : List ClassRow
deriving DecidableEq, Repr

/-- SELECT * FROM tracked_documents WHERE paperless_id = pid. -/
def findTracked (db : DB) (pid : Nat) : Option TrackedRow :=
  (db.tracked.find? (fun p => p.1 == pid)).map (fun p => p.2)

/-- Does a classification row for (run_id, paperless_id) already exist? -/
def classConflict (db : DB) (runId pid : Nat) : Bool :=
  db.classes.any (fun c => c.run_id == runId && c.paperless_id == pid)

/-- Plain INSERT INTO document_classifications: raises on a
UNIQUE(run_id, paperless_id) violation. -/
def insertClass (db : DB) (c : ClassRow) : Except String DB :=
  if classConflict db c.run_id c.paperless_id then
    .error "UNIQUE constraint failed: document_classifications.run_id, document_classifications.paperless_id"
  else
    .ok { db with classes := db.classes ++ [c] }

/-- INSERT OR IGNORE INTO document_classifications. -/
def insertClassOrIgnore (db : DB) (c : ClassRow) : DB :=
  if classConflict db c.run_id c.paperless_id then db
  else { db with classes := db.classes ++ [c] }

/-- UPDATE tracked_documents ... WHERE paperless_id = pid. -/
def updateTracked (db : DB) (pid : Nat) (f : TrackedRow → TrackedRow) : DB :=
  { db with tracked := db.tracked.map (fun p => if p.1 == pid then (p.1, f p.2) else p) }

/-- detect_changed_fields: the seven mirrored fields compared independently,
in the fixed order used by the source. -/
def detect_changed_fields (prev : TrackedRow) (d : Doc) : List String :=
  (if prev.title = d.title then [] else ["title"]) ++
  (if prev.mime_type = d.mime_type then [] else ["mime_type"]) ++
  (if prev.original_filename = d.original_filename then [] else ["original_filename"]) ++
  (if prev.archive_filename = d.archive_filename then [] else ["archive_filename"]) ++
  (if prev.page_count = d.page_count then [] else ["page_count"]) ++
  (if prev.modified = d.modified then [] else ["modified"]) ++
  (if prev.content_length = d.content_length then [] else ["content_length"])

/-- The seven field names recorded as changed for a brand-new document. -/
def allFieldNames : List String :=
  ["title", "mime_type", "original_filename", "archive_filename",
   "page_count", "modified", "content_length"]

/-- The tracked_documents INSERT performed for a first-seen document. -/
def newTrackedRow (runId : Nat) (obsAt : String) (d : Doc) (fp : Fp) : TrackedRow :=
  { first_seen_run_id := runId
    last_seen_run_id := runId
    first_seen_at := obsAt
    last_seen_at := obsAt
    is_active := true
    deleted_at := none
    deleted_in_run_id := none
    title := d.title
    mime_type := d.mime_type
    original_filename := d.original_filename
    archive_filename := d.archive_filename
    page_count := d.page_count
    modified := d.modified
    content_length := d.content_length
    current_fingerprint := fp }

/-- The classification row inserted for a first-seen document. -/
def classRowNew (runId : Nat) (obsAt : String) (d : Doc) (fp : Fp) : ClassRow :=
  { run_id := runId
    paperless_id := d.id
    observed_at := obsAt
    classification := "new"
    changed_fields := allFieldNames
    previous_fingerprint := none
    new_fingerprint := some fp
    title := d.title
    mime_type := d.mime_type
    original_filename := d.original_filename
    archive_filename := d.archive_filename
    page_count := d.page_count
    modified := d.modified
    content_length := d.content_length }

/-- The classification row inserted for an already-tracked document. -/
def classRowSeen (runId : Nat) (obsAt : String) (d : Doc) (cls : String)
    (changed : List String) (prevFp fp : Fp) : ClassRow :=
  { run_id := runId
    paperless_id := d.id
    observed_at := obsAt
    classification := cls
    changed_fields := changed
    previous_fingerprint := some prevFp
    new_fingerprint := some fp
    title := d.title
    mime_type := d.mime_type
    original_filename := d.original_filename
    archive_filename := d.archive_filename
    page_count := d.page_count
    modified := d.modified
    content_length := d.content_length }

/-- The tracked_documents UPDATE performed for an already-tracked document. -/
def seenUpdate (runId : Nat) (obsAt : String) (d : Doc) (fp : Fp)
    (r : TrackedRow) : TrackedRow :=
  { r with
    last_seen_run_id := runId
    last_seen_at := obsAt
    is_active := true
    deleted_at := none
    deleted_in_run_id := none
    title := d.title
    mime_type := d.mime_type
    original_filename := d.original_filename
    archive_filename := d.archive_filename
    page_count := d.page_count
    modified := d.modified
    content_length := d.content_length
    current_fingerprint := fp }

/-- The body of the per-document loop of run_sync: returns the updated
database and the classification string counted by the caller. -/
def syncOne (runId : Nat) (obsAt : String) (db : DB) (d : Doc) :
    Except String (DB × String) :=
  let fp := stable_fingerprint d
  match findTracked db d.id with
  | none =>
      let db1 : DB := { db with tracked := db.tracked ++ [(d.id, newTrackedRow runId obsAt d fp)] }
      (insertClass db1 (classRowNew runId obsAt d fp)).map (fun db2 => (db2, "new"))
  | some prev =>
      let changed := detect_changed_fields prev d
      let cls := if prev.current_fingerprint ≠ fp then "changed" else "unchanged"
      let db1 := updateTracked db d.id (seenUpdate runId obsAt d fp)
      (insertClass db1 (classRowSeen runId obsAt d cls changed prev.current_fingerprint fp)).map
        (fun db2 => (db2, cls))

/-- run_sync from init_ocr_tracking_db.py: classify every observed document
in order, returning (new_count, changed_count, unchanged_count).  A
classification UNIQUE violation aborts with an error, as the uncaught
sqlite3.IntegrityError would. -/
def runSync (runId : Nat) (obsAt : String) (db : DB) :
    List Doc → Except String (DB × Nat × Nat × Nat)
  | [] => .ok (db, 0, 0, 0)
  | d :: rest =>
    match syncOne runId obsAt db d with
    | .error e => .error e
    | .ok (db1, cls) =>
      match runSync runId obsAt db1 rest with
      | .error e => .error e
      | .ok (db2, n, c, u) =>
        .ok (db2,
          (if cls = "new" then 1 else 0) + n,
          (if cls = "changed" then 1 else 0) + c,
          (if cls = "unchanged" then 1 else 0) + u)

/-- SELECT paperless_id FROM tracked_documents WHERE is_active = 1. -/
def activeIds (db : DB) : List Nat :=
  (db.tracked.filter (fun p => p.2.is_active)).map (fun p => p.1)

/-- sorted(active_ids - observed_ids) from mark_missing_documents. -/
def missingIds (db : DB) (observed : List Nat) : List Nat :=
  ((activeIds db).filter (fun i => !(observed.contains i))).insertionSort (· ≤ ·)

/-- The classification row inserted (OR IGNORE) for a missing document. -/
def missingClassRow (runId pid : Nat) (nowIso : String) : ClassRow :=
  { run_id := runId
    paperless_id := pid
    observed_at := nowIso
    classification := "missing"
    changed_fields := []
    previous_fingerprint := none
    new_fingerprint := none
    title := ""
    mime_type := ""
    original_filename := ""
    archive_filename := ""
    page_count := none
    modified := none
    content_length := 0 }

/-- The soft-delete UPDATE applied to one missing document. -/
def softDelete (runId : Nat) (nowIso : String) (r : TrackedRow) : TrackedRow :=
  { r with is_active := false, deleted_at := some nowIso, deleted_in_run_id := some runId }

/-- The per-missing-id body of the mark_missing_documents loop: soft-delete
the tracked row and insert (OR IGNORE) a missing classification. -/
def markMissingStep (runId : Nat) (nowIso : String) (acc : DB) (pid : Nat) : DB :=
  insertClassOrIgnore (updateTracked acc pid (softDelete runId nowIso))
    (missingClassRow runId pid nowIso)

/-- mark_missing_documents from init_ocr_tracking_db.py: soft-delete every
still-active tracked id absent from the observed set and record a missing
classification for it; returns the updated database and the missing count. -/
def markMissing (db : DB) (runId : Nat) (observed : List Nat) (nowIso : String) :
    DB × Nat :=
  ((missingIds db observed).foldl (markMissingStep runId nowIso) db,
   (missingIds db observed).length)

/-! Document source client: raw JSON items and normalize_document. -/

/-- A JSON value as seen by the fetch layer. -/
inductive JVal where
  | null
  | str (s : String)
  | num (n : Int)
  | bool (b : Bool)
  | arr (items : List JVal)
  | obj (fields : List (String × JVal))

/-- Python truthiness for the coercions normalize_document applies. -/
def pyTruthy : JVal → Bool
  | .null => false
  | .str s => !(s.isEmpty)
  | .num n => n != 0
  | .bool b => b
  | .arr items => !(items.isEmpty)
  | .obj fields => !(fields.isEmpty)

/-- str(value) for the value shapes the normalizer can meet. -/
def pyStr : JVal → String
  | .null => "None"
  | .str s => s
  | .num n => toString n
  | .bool b => if b then "True" else "False"
  | .arr _ => "<list>"
  | .obj _ => "<dict>"

/-- int(value): numbers pass through, numeric strings parse, booleans coerce,
anything else raises (modeled as none). -/
def pyInt : JVal → Option Int
  | .num n => some n
  | .str s => s.toInt?
  | .bool b => some (if b then 1 else 0)
  | _ => none

/-- len(value or "") as applied to the content field. -/
def pyLen : JVal → Int
  | .str s => s.length
  | .arr items => items.length
  | _ => 0

/-- dict lookup (first binding wins). -/
def lookupField (fields : List (String × JVal)) (k : String) : Option JVal :=
  ((fields.find? (fun p => p.1 == k)).map (fun p => p.2))

/-- first_present from init_ocr_tracking_db.py: first key that is present
with a non-null value. -/
def firstPresent (fields : List (String × JVal)) : List String → Option JVal
  | [] => none
  | k :: ks =>
    match lookupField fields k with
    | some .null => firstPresent fields ks
    | some v => some v
    | none => firstPresent fields ks

/-- str(x or "") used for the plain string fields. -/
def strOrEmpty (v : Option JVal) : String :=
  match v with
  | some w => if pyTruthy w then pyStr w else ""
  | none => ""

/-- normalize_document from init_ocr_tracking_db.py.  A missing or null id
raises ValueError (modeled as an error); every other field falls back to its
alias list and default.  Ids are nonnegative in Paperless, so the id is read
into a Nat. -/
def normalize_document (fields : List (String × JVal)) : Except String Doc :=
  match firstPresent fields ["id"] with
  | none => .error "Document payload missing id"
  | some idv =>
    match pyInt idv with
    | none => .error "invalid literal for int()"
    | some i =>
      let content := (firstPresent fields ["content", "text"]).getD (.str "")
      let contentLength :=
        match firstPresent fields ["content_length"] with
        | none => pyLen content
        | some v =>
          match pyInt v with
          | some n => n
          | none => pyLen content
      .ok
        { id := i.toNat
          title := strOrEmpty (firstPresent fields ["title"])
          mime_type := strOrEmpty (firstPresent fields ["mime_type", "mime"])
          original_filename :=
            strOrEmpty (firstPresent fields
              ["original_filename", "original_file_name", "original_file", "filename"])
          archive_filename :=
            strOrEmpty (firstPresent fields
              ["archive_filename", "archived_file_name", "archive_file_name", "archive_file"])
          page_count := (firstPresent fields ["page_count", "pages"]).bind pyInt
          modified :=
            match firstPresent fields ["modified", "updated", "created"] with
            | some v => if pyTruthy v then some (pyStr v) else none
            | none => none
          content_length := contentLength }

/-- The per-page item loop of fetch_all_documents: items that are not
objects are skipped, object items are normalized, and a normalization
error propagates and aborts the whole fetch (there is no try/except around
the normalize_document call in the source). -/
def processPageItems : List JVal → Except String (List Doc)
  | [] => .ok []
  | item :: rest =>
    match item with
    | .obj fields =>
      match normalize_document fields with
      | .error e => .error e
      | .ok d =>
        match processPageItems rest with
        | .error e => .error e
        | .ok ds => .ok (d :: ds)
    | _ => processPageItems rest

/-! Run history and candidate selection (ocr_tracking_dashboard.py). -/

/-- One parsed line of the append-only history log, reduced to the two
fields candidate selection reads: the run timestamp (seconds, none when
strptime fails) and the document id (none when int() fails). -/
structure HistRow where
  runTs : Option Int
  docId : Option Nat
deriving DecidableEq, Repr

def secondsPerDay : Int := 86400

/-- Membership in the set built by recent_manual_ocr_ids: an id is recent
when some history row for it parses and falls on or after the cutoff. -/
def isRecentId (rows : List HistRow) (cutoff : Int) (i : Nat) : Bool :=
  rows.any (fun r =>
    match r.runTs, r.docId with
    | some ts, some j => decide (cutoff ≤ ts) && j == i
    | _, _ => false)

/-- The sort key of refresh_candidates: ascending (content_length, id). -/
def candLe (a b : Doc) : Prop :=
  a.content_length < b.content_length ∨
    (a.content_length = b.content_length ∧ a.id ≤ b.id)

instance : DecidableRel candLe := fun a b => by
  unfold candLe; infer_instance

instance : IsTotal Doc candLe := by
  constructor
  intro a b
  unfold candLe
  rcases lt_trichotomy a.content_length b.content_length with h | h | h
  · exact Or.inl (Or.inl h)
  · rcases Nat.le_total a.id b.id with h2 | h2
    · exact Or.inl (Or.inr ⟨h, h2⟩)
    · exact Or.inr (Or.inr ⟨h.symm, h2⟩)
  · exact Or.inr (Or.inl h)

instance : IsTrans Doc candLe := by
  constructor
  intro a b c hab hbc
  unfold candLe at *
  rcases hab with h1 | ⟨h1, h1i⟩ <;> rcases hbc with h2 | ⟨h2, h2i⟩
  · exact Or.inl (lt_trans h1 h2)
  · exact Or.inl (h2 ▸ h1)
  · exact Or.inl (h1 ▸ h2)
  · exact Or.inr ⟨h1.trans h2, h1i.trans h2i⟩

/-- refresh_candidates from ocr_tracking_dashboard.py: drop ids with a
recent history row, sort ascending by (content_length, id), truncate to the
batch size. -/
def refreshCandidates (docs : List Doc) (rows : List HistRow) (now : Int)
    (recentDays : Int) (batchSize : Nat) : List Doc :=
  let cutoff := now - recentDays * secondsPerDay
  let cand := docs.filter (fun d => !(isRecentId rows cutoff d.id))
  (cand.insertionSort candLe).take batchSize

/-! Job submission and task reconciliation engine
(_run_api_reprocess_worker and its helpers in ocr_tracking_dashboard.py).

The shared threading.Event stop flag is modeled as a Boolean schedule
indexed by a tick counter: every is_set() call in the source reads the
schedule at the current tick and advances the tick, so an arbitrary
asynchronous setting of the flag is an arbitrary (in the theorems:
monotone) schedule.  The two polling loops run on fuel: the task poll
loop has no ceiling in the source, so exhausting its fuel makes the
whole worker return none (the source would still be polling); the diff
poll loop's fuel is the number of iterations the 600-second wall-clock
ceiling admits. -/

/-- Per-id job state, JobOutcome of the spec. -/
inductive JStatus where
  | pending
  | success
  | failed
deriving DecidableEq, Repr

/-- One doc_results entry: status plus free-text detail. -/
structure DocResult where
  status : JStatus
  detail : String
deriving DecidableEq, Repr

/-- The four-field diff baseline captured by _extract_doc_snapshot. -/
structure Snapshot where
  modified : Option String
  content_length : Int
  archive_filename : String
  page_count : Option Int
deriving DecidableEq, Repr

/-- What one bulk_edit submission call produces: either a payload, reduced
to its extracted UUID task-id list, its normalized result field
(str(payload.get("result", "")) on a dict, empty otherwise) and a rendering
of the raw payload for the failure detail, or an exception. -/
inductive SubmitOutcome where
  | ok (taskIds : List String) (resultValue : String) (rawText : String)
  | exc (msg : String)

/-- The environment of one worker run: the stop-flag schedule and the
deterministic response oracles of the external system.  taskStatus is
indexed by poll attempt, fetchSnap by diff-poll iteration. -/
structure Env where
  stop : Nat → Bool
  submit : Nat → SubmitOutcome
  taskStatus : String → Nat → String × String
  fetchSnap : Nat → Nat → Option Snapshot
  baseline : Nat → Snapshot
  baseTitle : Nat → String
  postFetch : Nat → Except String (String × Int)

/-- str.upper() restricted to the ASCII case the OK-token test needs. -/
def pyUpper (s : String) : String := ⟨s.data.map Char.toUpper⟩

def pySpace (c : Char) : Bool := c = ' ' || c = '\t' || c = '\n' || c = '\r'

/-- str.strip(): drop leading and trailing whitespace. -/
def pyStrip (s : String) : String :=
  ⟨(((s.data.dropWhile pySpace).reverse).dropWhile pySpace).reverse⟩

/-- Pointwise update of the doc_results dictionary. -/
def setRes (res : Nat → DocResult) (did : Nat) (v : DocResult) : Nat → DocResult :=
  fun d => if d = did then v else res d

/-- _classify_task_state: known terminal-success and terminal-failure
tokens, anything else still pending. -/
def classifyTaskState (raw : String) : String :=
  let s := pyUpper raw
  if ["SUCCESS", "SUCCEEDED", "DONE", "COMPLETED", "COMPLETE", "FINISHED"].contains s then
    "success"
  else if ["FAILURE", "FAILED", "ERROR", "REVOKED", "CANCELED", "CANCELLED"].contains s then
    "failure"
  else "pending"

/-- The doc_results entry recorded after a task poll returns terminal
state st with detail d. -/
def recordTaskResult (st d : String) : DocResult :=
  if classifyTaskState st = "success" then
    ⟨.success, "task_state=" ++ st ++ (if d = "" then "" else ", " ++ d)⟩
  else
    ⟨.failed, "task_state=" ++ st ++ (if d = "" then "" else ", detail=" ++ d)⟩

/-- _poll_task_until_terminal: check the stop flag, query the task, return
on a terminal classification, otherwise sleep and repeat.  Arguments: fuel,
tick, poll attempt; returns (next tick, state, detail), or none if the
fuel runs out while the task is still pending. -/
def pollTask (env : Env) (tid : String) : Nat → Nat → Nat → Option (Nat × String × String)
  | 0, _, _ => none
  | fuel + 1, t, att =>
    if env.stop t then some (t + 1, "ABORTED", "Stopped by user")
    else
      let p := env.taskStatus tid att
      if classifyTaskState p.1 = "pending" then pollTask env tid fuel (t + 1) (att + 1)
      else some (t + 1, p.1, p.2)

/-- Phase 2 of _run_api_reprocess_worker: poll each submitted task in
order; a set stop flag at the top of an iteration, or observed right after
a poll returns, breaks the loop leaving the remaining ids untouched. -/
def pollPhase (env : Env) (fuel : Nat) :
    List (Nat × String) → Nat → (Nat → DocResult) → Option (Nat × (Nat → DocResult))
  | [], t, res => some (t, res)
  | (did, tid) :: rest, t, res =>
    if env.stop t then some (t + 1, res)
    else
      match pollTask env tid fuel (t + 1) 0 with
      | none => none
      | some (t2, st, d) =>
        if env.stop t2 then some (t2 + 1, res)
        else pollPhase env fuel rest (t2 + 1) (setRes res did (recordTaskResult st d))

/-- Phase 1 of _run_api_reprocess_worker: submit each id once, classifying
the response into task-id submission, bare {"result":"OK"} acceptance,
unrecognized payload, or exception; a set stop flag halts the loop leaving
the remaining ids not_submitted. -/
def submitPhase (env : Env) :
    List Nat → Nat → (Nat → DocResult) → List (Nat × String) → List Nat →
    Nat × (Nat → DocResult) × List (Nat × String) × List Nat
  | [], t, res, tasks, noTask => (t, res, tasks, noTask)
  | did :: rest, t, res, tasks, noTask =>
    if env.stop t then (t + 1, res, tasks, noTask)
    else
      match env.submit did with
      | .exc msg =>
        submitPhase env rest (t + 1) (setRes res did ⟨.failed, "submit_error=" ++ msg⟩)
          tasks noTask
      | .ok [] rv raw =>
        if pyUpper (pyStrip rv) = "OK" then
          submitPhase env rest (t + 1)
            (setRes res did ⟨.pending, "accepted_by_api_no_task_id"⟩)
            tasks (noTask ++ [did])
        else
          submitPhase env rest (t + 1)
            (setRes res did ⟨.failed, "no_task_id_payload=" ++ raw⟩)
            tasks noTask
      | .ok (tid :: _) _ _ =>
        submitPhase env rest (t + 1)
          (setRes res did ⟨.pending, "task_id=" ++ tid⟩)
          (tasks ++ [(did, tid)]) noTask

/-- The inner for-loop of _poll_no_task_reprocess_diffs: walk the pending
snapshot list once at diff-poll iteration iter; a set stop flag breaks, a
fetch error skips the id, a four-field difference marks it observed.
Returns (next tick, ids observed this round). -/
def diffInner (env : Env) (iter : Nat) :
    List (Nat × Snapshot) → Nat → Nat × List Nat
  | [], t => (t, [])
  | (did, base) :: rest, t =>
    if env.stop t then (t + 1, [])
    else
      match env.fetchSnap did iter with
      | none => diffInner env iter rest (t + 1)
      | some after =>
        if after = base then diffInner env iter rest (t + 1)
        else
          let r := diffInner env iter rest (t + 1)
          (r.1, did :: r.2)

/-- The while-loop of _poll_no_task_reprocess_diffs: dfuel is the number of
iterations the wall-clock ceiling still admits.  Returns (next tick,
observed ids, still-pending baseline entries). -/
def diffOuter (env : Env) :
    Nat → List (Nat × Snapshot) → Nat → Nat → Nat × List Nat × List (Nat × Snapshot)
  | _, [], t, _ => (t, [], [])
  | dfuel, p0 :: pendRest, t, iter =>
    if env.stop t then (t + 1, [], p0 :: pendRest)
    else
      match dfuel with
      | 0 => (t + 1, [], p0 :: pendRest)
      | dfuel + 1 =>
        let r := diffInner env iter (p0 :: pendRest) (t + 1)
        match (p0 :: pendRest).filter (fun p => !(r.2.contains p.1)) with
        | [] => (r.1, r.2, [])
        | q :: qs =>
          let r2 := diffOuter env dfuel (q :: qs) (r.1 + 1) (iter + 1)
          (r2.1, r.2 ++ r2.2.1, r2.2.2)

/-- _poll_no_task_reprocess_diffs: run the diff loop, then resolve every
still-pending id to stopped (stop flag set) or no-observed-diff (ceiling
reached).  Returns (next tick, observed, no-diff, stopped). -/
def pollNoTaskDiffs (env : Env) (dfuel : Nat) (baselines : List (Nat × Snapshot))
    (t : Nat) : Nat × List Nat × List Nat × List Nat :=
  let r := diffOuter env dfuel baselines t 0
  if env.stop r.1 then (r.1 + 1, r.2.1, [], r.2.2.map (fun p => p.1))
  else (r.1 + 1, r.2.1, r.2.2.map (fun p => p.1), [])

/-- Phase 3 writeback: observed ids become diff-observed successes, no-diff
ids become accepted successes, stopped ids become stopped failures. -/
def applyDiffResults (res : Nat → DocResult) (obs noDiff stopped : List Nat) :
    Nat → DocResult :=
  let r1 := obs.foldl (fun a did => setRes a did ⟨.success, "observed_change_via_diff"⟩) res
  let r2 := noDiff.foldl (fun a did => setRes a did ⟨.success, "accepted_no_observed_diff"⟩) r1
  stopped.foldl (fun a did => setRes a did ⟨.failed, "stopped_before_diff_observation"⟩) r2

/-- Phase 4 of _run_api_reprocess_worker: force every id still pending to
failure, distinguishing cancellation from a logic gap. -/
def finalizePhase (env : Env) :
    List Nat → Nat → (Nat → DocResult) → Nat × (Nat → DocResult)
  | [], t, res => (t, res)
  | did :: rest, t, res =>
    if (res did).status = .pending then
      if env.stop t then
        finalizePhase env rest (t + 1)
          (setRes res did ⟨.failed, "stopped_before_completion"⟩)
      else
        finalizePhase env rest (t + 1)
          (setRes res did ⟨.failed, "incomplete_without_terminal_status"⟩)
    else finalizePhase env rest t res

/-- One HistoryRow appended to the JSONL archive. -/
structure HRow where
  run_ts : String
  id : Nat
  title : String
  pre_content_length : Int
  post_content_length : Int
  content_delta : Int
  status : String
  detail : String
  source : String
deriving DecidableEq, Repr

/-- The final per-id reporting refetch and history row of
_run_api_reprocess_worker: a refetch failure only annotates the detail and
never changes the terminal status. -/
def mkRow (env : Env) (runTs : String) (res : Nat → DocResult) (did : Nat) : HRow :=
  let pre := (env.baseline did).content_length
  let r := res did
  let statusStr := if r.status = .success then "success" else "failed"
  match env.postFetch did with
  | .ok (ttl, plen) =>
    { run_ts := runTs
      id := did
      title := if ttl = "" then env.baseTitle did else ttl
      pre_content_length := pre
      post_content_length := plen
      content_delta := plen - pre
      status := statusStr
      detail := r.detail
      source := "api_bulk_reprocess" }
  | .error e =>
    { run_ts := runTs
      id := did
      title := env.baseTitle did
      pre_content_length := pre
      post_content_length := pre
      content_delta := 0
      status := statusStr
      detail := if r.detail = "" then "post_fetch_error=" ++ e
                else r.detail ++ " | post_fetch_error=" ++ e
      source := "api_bulk_reprocess" }

/-- _run_api_reprocess_worker: submission, task polling, diff-observation
fallback (only when some id was accepted without a task id), finalization,
then one history row per id of the original batch.  Returns none only if a
task poll is still pending when its fuel runs out, which is the case in
which the source worker would not yet have returned. -/
def runWorker (env : Env) (pfuel dfuel : Nat) (runTs : String) (docIds : List Nat) :
    Option ((Nat → DocResult) × List HRow) :=
  let init : Nat → DocResult := fun _ => ⟨.pending, "not_submitted"⟩
  let s := submitPhase env docIds 0 init [] []
  match pollPhase env pfuel s.2.2.1 s.1 s.2.1 with
  | none => none
  | some (t2, res2) =>
    let r3 :=
      match s.2.2.2 with
      | [] => (t2, res2)
      | nt@(_ :: _) =>
        let pr := pollNoTaskDiffs env dfuel (nt.map (fun d => (d, env.baseline d))) t2
        (pr.1, applyDiffResults res2 pr.2.1 pr.2.2.1 pr.2.2.2)
    let res4 := (finalizePhase env docIds r3.1 r3.2).2
    some (res4, docIds.map (mkRow env runTs res4))

/-! Helper lemmas: association-list lookups. -/

theorem find?_append_of_some {α : Type} {l l2 : List α} {p : α → Bool} {r : α}
    (h : l.find? p = some r) : (l ++ l2).find? p = some r := by
  induction l with
  | nil => simp at h
  | cons hd tl ih =>
    by_cases hp : p hd
    · rw [List.find?_cons_of_pos _ hp] at h
      rw [List.cons_append, List.find?_cons_of_pos _ hp]
      exact h
    · rw [List.find?_cons_of_neg _ (by simpa using hp)] at h
      rw [List.cons_append, List.find?_cons_of_neg _ (by simpa using hp)]
      exact ih h

theorem find?_append_of_none {α : Type} {l l2 : List α} {p : α → Bool}
    (h : l.find? p = none) : (l ++ l2).find? p = l2.find? p := by
  induction l with
  | nil => simp
  | cons hd tl ih =>
    by_cases hp : p hd
    · rw [List.find?_cons_of_pos _ hp] at h
      exact absurd h (by simp)
    · rw [List.find?_cons_of_neg _ (by simpa using hp)] at h
      rw [List.cons_append, List.find?_cons_of_neg _ (by simpa using hp)]
      exact ih h

theorem find?_update (l : List (Nat × TrackedRow)) (pid q : Nat)
    (f : TrackedRow → TrackedRow) :
    (l.map (fun p => if p.1 == pid then (p.1, f p.2) else p)).find? (fun p => p.1 == q)
      = if q = pid
        then (l.find? (fun p => p.1 == q)).map (fun p => (p.1, f p.2))
        else l.find? (fun p => p.1 == q) := by
  induction l with
  | nil => by_cases h : q = pid <;> simp [h]
  | cons hd tl ih =>
    rw [List.map_cons]
    by_cases hk : hd.1 = pid
    · rw [if_pos (by simpa using hk)]
      by_cases hq : hd.1 = q
      · have hqp : q = pid := hq.symm.trans hk
        have e1 : (hd.1 == q) = true := by simpa using hq
        have e2 : (hd.1 == pid) = true := by simpa using hk
        simp [List.find?, e1, hqp, e2]
      · by_cases hqp : q = pid
        · exact absurd (hk.trans hqp.symm) hq
        · have e1 : (hd.1 == q) = false := by simpa using hq
          simp only [List.find?, e1, ih, if_neg hqp]
    · rw [if_neg (by simpa using hk)]
      by_cases hq : hd.1 = q
      · have hqp : ¬ q = pid := fun h2 => hk (hq.trans h2)
        have e1 : (hd.1 == q) = true := by simpa using hq
        simp [List.find?, e1, hqp]
      · have e1 : (hd.1 == q) = false := by simpa using hq
        by_cases hqp : q = pid
        · simp only [List.find?, e1, ih, if_pos hqp]
        · simp only [List.find?, e1, ih, if_neg hqp]

theorem findTracked_update_self {db : DB} {pid : Nat} {r : TrackedRow}
    (f : TrackedRow → TrackedRow) (h : findTracked db pid = some r) :
    findTracked (updateTracked db pid f) pid = some (f r) := by
  unfold findTracked updateTracked at *
  simp only [find?_update, if_true]
  obtain ⟨p, hp, hp2⟩ : ∃ p, db.tracked.find? (fun p => p.1 == pid) = some p ∧ p.2 = r := by
    cases hf : db.tracked.find? (fun p => p.1 == pid) with
    | none => simp [hf] at h
    | some p => exact ⟨p, rfl, by simp [hf] at h; exact h⟩
  simp [hp, hp2]

theorem findTracked_update_other {db : DB} {pid q : Nat}
    (f : TrackedRow → TrackedRow) (h : q ≠ pid) :
    findTracked (updateTracked db pid f) q = findTracked db q := by
  unfold findTracked updateTracked
  simp only [find?_update, h, if_false]

theorem updateTracked_keys (db : DB) (pid : Nat) (f : TrackedRow → TrackedRow) :
    (updateTracked db pid f).tracked.map Prod.fst = db.tracked.map Prod.fst := by
  unfold updateTracked
  simp only [List.map_map]
  congr 1
  funext p
  by_cases h : p.1 = pid <;> simp [h]

theorem updateTracked_classes (db : DB) (pid : Nat) (f : TrackedRow → TrackedRow) :
    (updateTracked db pid f).classes = db.classes := rfl

theorem findTracked_none_not_mem {db : DB} {pid : Nat}
    (h : findTracked db pid = none) : ∀ p ∈ db.tracked, p.1 ≠ pid := by
  intro p hp
  unfold findTracked at h
  cases hf : db.tracked.find? (fun p => p.1 == pid) with
  | none =>
    have := List.find?_eq_none.mp hf p hp
    simpa using this
  | some q => simp [hf] at h

theorem mem_activeIds {db : DB} {i : Nat} :
    i ∈ activeIds db ↔ ∃ r, (i, r) ∈ db.tracked ∧ r.is_active = true := by
  unfold activeIds
  simp only [List.mem_map, List.mem_filter]
  constructor
  · rintro ⟨p, ⟨hp, ha⟩, rfl⟩
    exact ⟨p.2, hp, ha⟩
  · rintro ⟨r, hp, ha⟩
    exact ⟨(i, r), ⟨hp, ha⟩, rfl⟩

theorem insertClass_ok {db : DB} {c : ClassRow} {db2 : DB}
    (h : insertClass db c = .ok db2) :
    db2.runs = db.runs ∧ db2.tracked = db.tracked ∧
      db2.classes = db.classes ++ [c] ∧
      classConflict db c.run_id c.paperless_id = false := by
  unfold insertClass at h
  by_cases hc : classConflict db c.run_id c.paperless_id
  · simp [hc] at h
  · simp only [hc, Bool.false_eq_true, if_false, Except.ok.injEq] at h
    subst h
    exact ⟨rfl, rfl, rfl, by simpa using hc⟩

theorem classConflict_append {db : DB} {c : ClassRow} {runId i : Nat} :
    classConflict { db with classes := db.classes ++ [c] } runId i
      = (classConflict db runId i || (c.run_id == runId && c.paperless_id == i)) := by
  unfold classConflict
  simp [List.any_append]

theorem mem_active_update {db : DB} {pid : Nat} {prev : TrackedRow}
    {f : TrackedRow → TrackedRow} (hact : ∀ r, (f r).is_active = true)
    (hf : findTracked db pid = some prev) :
    ∀ i, i ∈ activeIds (updateTracked db pid f) ↔ i = pid ∨ i ∈ activeIds db := by
  intro i
  have hmem0 : ∃ p ∈ db.tracked, p.1 = pid := by
    unfold findTracked at hf
    cases hfin : db.tracked.find? (fun p => p.1 == pid) with
    | none => simp [hfin] at hf
    | some p =>
      exact ⟨p, List.mem_of_find?_eq_some hfin, by simpa using List.find?_some hfin⟩
  rw [mem_activeIds, mem_activeIds]
  constructor
  · rintro ⟨r, hmem, hrac⟩
    unfold updateTracked at hmem
    simp only [List.mem_map] at hmem
    obtain ⟨p, hp, hgp⟩ := hmem
    by_cases hk : p.1 = pid
    · left
      have : (p.1 == pid) = true := by simpa using hk
      rw [this] at hgp
      simp only [if_true] at hgp
      have := congrArg Prod.fst hgp
      simpa [hk] using this.symm
    · right
      have : (p.1 == pid) = false := by simpa using hk
      rw [this] at hgp
      simp only [Bool.false_eq_true, if_false] at hgp
      exact ⟨r, hgp ▸ hp, hrac⟩
  · intro hcase
    by_cases hip : i = pid
    · obtain ⟨p, hp, hk⟩ := hmem0
      refine ⟨f p.2, ?_, hact _⟩
      unfold updateTracked
      simp only [List.mem_map]
      refine ⟨p, hp, ?_⟩
      have : (p.1 == pid) = true := by simpa using hk
      rw [this]
      simp [hk, hip]
    · rcases hcase with hcase | ⟨r, hmem, hrac⟩
      · exact absurd hcase hip
      · refine ⟨r, ?_, hrac⟩
        unfold updateTracked
        simp only [List.mem_map]
        refine ⟨(i, r), hmem, ?_⟩
        have : ((i, r).1 == pid) = false := by simpa using hip
        rw [this]
        simp

theorem activeIds_append_active {db : DB} {pid : Nat} {row : TrackedRow}
    (hrow : row.is_active = true) :
    ∀ i, i ∈ activeIds { db with tracked := db.tracked ++ [(pid, row)] }
      ↔ i = pid ∨ i ∈ activeIds db := by
  intro i
  rw [mem_activeIds, mem_activeIds]
  constructor
  · rintro ⟨r, hmem, hrac⟩
    rcases List.mem_append.mp hmem with hmem | hmem
    · exact Or.inr ⟨r, hmem, hrac⟩
    · left
      simp only [List.mem_singleton, Prod.mk.injEq] at hmem
      exact hmem.1
  · rintro (rfl | ⟨r, hmem, hrac⟩)
    · exact ⟨row, List.mem_append.mpr (Or.inr (by simp)), hrow⟩
    · exact ⟨r, List.mem_append.mpr (Or.inl hmem), hrac⟩

theorem syncOne_spec {runId : Nat} {obsAt : String} {db : DB} {d : Doc}
    {db1 : DB} {cls : String}
    (h : syncOne runId obsAt db d = .ok (db1, cls)) :
    db1.runs = db.runs ∧
    (∃ c : ClassRow, db1.classes = db.classes ++ [c] ∧ c.run_id = runId ∧
      c.paperless_id = d.id ∧ c.classification = cls) ∧
    classConflict db runId d.id = false ∧
    (∃ row, findTracked db1 d.id = some row ∧
      row.current_fingerprint = stable_fingerprint d ∧ row.is_active = true) ∧
    (∀ q, q ≠ d.id → findTracked db1 q = findTracked db q) ∧
    (db1.tracked.map Prod.fst = db.tracked.map Prod.fst ∨
      (db1.tracked.map Prod.fst = db.tracked.map Prod.fst ++ [d.id] ∧
        d.id ∉ db.tracked.map Prod.fst)) ∧
    (∀ i, i ∈ activeIds db1 ↔ i = d.id ∨ i ∈ activeIds db) ∧
    (cls = "new" ∨ cls = "changed" ∨ cls = "unchanged") := by
  unfold syncOne at h
  cases hf : findTracked db d.id with
  | none =>
    rw [hf] at h
    simp only [Except.map] at h
    cases hi : insertClass
        { db with tracked := db.tracked ++ [(d.id, newTrackedRow runId obsAt d (stable_fingerprint d))] }
        (classRowNew runId obsAt d (stable_fingerprint d)) with
    | error e => rw [hi] at h; simp at h
    | ok db2 =>
      rw [hi] at h
      simp only [Except.ok.injEq, Prod.mk.injEq] at h
      obtain ⟨rfl, rfl⟩ := h
      obtain ⟨hruns, htr, hcl, hconf⟩ := insertClass_ok hi
      have hfindnone : db.tracked.find? (fun p => p.1 == d.id) = none := by
        unfold findTracked at hf
        cases hfin : db.tracked.find? (fun p => p.1 == d.id) with
        | none => rfl
        | some p => rw [hfin] at hf; simp at hf
      refine ⟨hruns, ⟨classRowNew runId obsAt d (stable_fingerprint d), hcl, rfl, rfl, rfl⟩,
        hconf, ?_, ?_, ?_, ?_, Or.inl rfl⟩
      · refine ⟨newTrackedRow runId obsAt d (stable_fingerprint d), ?_, rfl, rfl⟩
        unfold findTracked
        rw [htr]
        show (List.find? _ (db.tracked ++ [_])).map _ = _
        rw [find?_append_of_none hfindnone]
        simp [List.find?]
      · intro q hq
        unfold findTracked
        rw [htr]
        show (List.find? _ (db.tracked ++ [_])).map _ = _
        cases hfq : db.tracked.find? (fun p => p.1 == q) with
        | none =>
          rw [find?_append_of_none hfq]
          have : (d.id == q) = false := by simpa using fun h2 => hq h2.symm
          simp [List.find?, this]
        | some p => rw [find?_append_of_some hfq]
      · right
        constructor
        · rw [htr]
          simp
        · intro hmem
          obtain ⟨p, hp, hpk⟩ := List.mem_map.mp hmem
          exact absurd (show (p.1 == d.id) = true by simpa using hpk)
            (by simpa using List.find?_eq_none.mp hfindnone p hp)
      · intro i
        have hA := @activeIds_append_active db d.id
          (newTrackedRow runId obsAt d (stable_fingerprint d)) rfl i
        unfold activeIds at hA ⊢
        rw [htr]
        simpa using hA
  | some prev =>
    rw [hf] at h
    simp only [Except.map] at h
    cases hi : insertClass (updateTracked db d.id (seenUpdate runId obsAt d (stable_fingerprint d)))
        (classRowSeen runId obsAt d
          (if prev.current_fingerprint ≠ stable_fingerprint d then "changed" else "unchanged")
          (detect_changed_fields prev d) prev.current_fingerprint (stable_fingerprint d)) with
    | error e => rw [hi] at h; simp at h
    | ok db2 =>
      rw [hi] at h
      simp only [Except.ok.injEq, Prod.mk.injEq] at h
      obtain ⟨rfl, rfl⟩ := h
      obtain ⟨hruns, htr, hcl, hconf⟩ := insertClass_ok hi
      have hclsv :
          (if prev.current_fingerprint ≠ stable_fingerprint d then "changed" else "unchanged")
            = "changed" ∨
          (if prev.current_fingerprint ≠ stable_fingerprint d then "changed" else "unchanged")
            = "unchanged" := by
        by_cases hne : prev.current_fingerprint ≠ stable_fingerprint d
        · left; simp [hne]
        · right; simp [hne]
      refine ⟨hruns, ⟨_, hcl, rfl, rfl, rfl⟩, hconf, ?_, ?_, ?_, ?_, ?_⟩
      · refine ⟨seenUpdate runId obsAt d (stable_fingerprint d) prev, ?_, rfl, rfl⟩
        have := findTracked_update_self (seenUpdate runId obsAt d (stable_fingerprint d)) hf
        unfold findTracked at this ⊢
        rw [htr]
        exact this
      · intro q hq
        have := @findTracked_update_other db d.id q
          (seenUpdate runId obsAt d (stable_fingerprint d)) hq
        unfold findTracked at this ⊢
        rw [htr]
        exact this
      · left
        rw [htr]
        exact updateTracked_keys db d.id _
      · intro i
        have := @mem_active_update db d.id prev
          (seenUpdate runId obsAt d (stable_fingerprint d)) (fun r => rfl) hf i
        unfold activeIds at this ⊢
        rw [htr]
        simpa using this
      · rcases hclsv with h2 | h2
        · exact Or.inr (Or.inl h2)
        · exact Or.inr (Or.inr h2)

/-- The paperless_id PRIMARY KEY invariant of tracked_documents. -/
def nodupKeys (db : DB) : Prop := (db.tracked.map Prod.fst).Nodup

/-- No classification row of runId exists yet (runId is a fresh run id). -/
def runFresh (db : DB) (runId : Nat) : Prop := ∀ c ∈ db.classes, c.run_id ≠ runId

theorem classConflict_classes_append {db db1 : DB} {c : ClassRow} {runId i : Nat}
    (h : db1.classes = db.classes ++ [c]) :
    classConflict db1 runId i
      = (classConflict db runId i || (c.run_id == runId && c.paperless_id == i)) := by
  unfold classConflict
  rw [h, List.any_append]
  simp [List.any]

theorem runSync_counts {runId : Nat} {obsAt : String} {docs : List Doc} :
    ∀ {db db2 : DB} {n c u : Nat},
      runSync runId obsAt db docs = .ok (db2, n, c, u) → n + c + u = docs.length := by
  induction docs with
  | nil =>
    intro db db2 n c u h
    simp only [runSync, Except.ok.injEq, Prod.mk.injEq] at h
    obtain ⟨-, h1, h2, h3⟩ := h
    simp only [List.length_nil]
    omega
  | cons d rest ih =>
    intro db db2 n c u h
    unfold runSync at h
    split at h
    next e hs => simp at h
    next db1 cls hs =>
    split at h
    next e2 hr => simp at h
    next db2x nx cx ux hr =>
    simp only [Except.ok.injEq, Prod.mk.injEq] at h
    obtain ⟨rfl, rfl, rfl, rfl⟩ := h
    have hsum := ih hr
    have hcls := (syncOne_spec hs).2.2.2.2.2.2.2
    rcases hcls with rfl | rfl | rfl <;> simp <;> omega

theorem runSync_spec {runId : Nat} {obsAt : String} {docs : List Doc} :
    ∀ {db db2 : DB} {n c u : Nat},
      runSync runId obsAt db docs = .ok (db2, n, c, u) →
      db2.runs = db.runs ∧
      (∃ added, db2.classes = db.classes ++ added ∧
        ∀ cr ∈ added, cr.run_id = runId ∧ cr.paperless_id ∈ docs.map Doc.id) ∧
      (∀ q, q ∉ docs.map Doc.id → findTracked db2 q = findTracked db q) ∧
      (∀ i, classConflict db2 runId i = true
        ↔ classConflict db runId i = true ∨ i ∈ docs.map Doc.id) ∧
      (∀ i, i ∈ activeIds db2 ↔ i ∈ docs.map Doc.id ∨ i ∈ activeIds db) ∧
      (nodupKeys db → nodupKeys db2) := by
  induction docs with
  | nil =>
    intro db db2 n c u h
    simp only [runSync, Except.ok.injEq, Prod.mk.injEq] at h
    obtain ⟨rfl, -, -, -⟩ := h
    exact ⟨rfl, ⟨[], by simp, by simp⟩, fun q _ => rfl, fun i => by simp,
      fun i => by simp, id⟩
  | cons d rest ih =>
    intro db db2 n c u h
    unfold runSync at h
    split at h
    next e hs => simp at h
    next db1 cls hs =>
    split at h
    next e2 hr => simp at h
    next db2x nx cx ux hr =>
    simp only [Except.ok.injEq, Prod.mk.injEq] at h
    obtain ⟨rfl, -, -, -⟩ := h
    obtain ⟨hruns1, ⟨c0, hcl1, hc0run, hc0pid, -⟩, -, ⟨row1, hfind1, -, -⟩,
          hother1, hkeys1, hactive1, -⟩ := syncOne_spec hs
    obtain ⟨hruns2, ⟨added2, hcl2, haddmem2⟩, hother2, hconf2, hactive2, hnd2⟩ := ih hr
    refine ⟨hruns2.trans hruns1, ?_, ?_, ?_, ?_, ?_⟩
    · refine ⟨c0 :: added2, ?_, ?_⟩
      · rw [hcl2, hcl1]
        simp
      · intro cr hcr
        rcases List.mem_cons.mp hcr with hceq | hctl
        · subst hceq
          exact ⟨hc0run, by simp [hc0pid]⟩
        · obtain ⟨h1, h2⟩ := haddmem2 cr hctl
          exact ⟨h1, by simp only [List.map_cons, List.mem_cons]; exact Or.inr h2⟩
    · intro q hq
      simp only [List.map_cons, List.mem_cons, not_or] at hq
      exact (hother2 q hq.2).trans (hother1 q hq.1)
    · intro i
      rw [hconf2 i, classConflict_classes_append hcl1]
      constructor
      · rintro (hh | hh)
        · rcases Bool.or_eq_true_iff.mp hh with hh2 | hh2
          · exact Or.inl hh2
          · right
            simp only [List.map_cons, List.mem_cons]
            left
            have := (Bool.and_eq_true _ _).mp hh2
            have h3 : c0.paperless_id = i := by simpa using this.2
            rw [← h3, hc0pid]
        · right
          simp only [List.map_cons, List.mem_cons]
          exact Or.inr hh
      · rintro (hh | hh)
        · exact Or.inl (by simp [hh])
        · simp only [List.map_cons, List.mem_cons] at hh
          rcases hh with hh | hh
          · left
            apply Bool.or_eq_true_iff.mpr
            right
            simp [hc0run, hc0pid, hh]
          · exact Or.inr hh
    · intro i
      rw [hactive2 i]
      simp only [List.map_cons, List.mem_cons]
      rw [hactive1 i]
      tauto
    · intro hnd
      apply hnd2
      unfold nodupKeys
      rcases hkeys1 with hk | ⟨hk, hnotin⟩
      · rw [hk]; exact hnd
      · rw [hk]
        simp only [List.nodup_append, List.nodup_cons, List.nodup_nil,
          List.disjoint_singleton]
        refine ⟨hnd, by simp, by simpa using hnotin⟩

theorem runSync_ok_nodup_aux {runId : Nat} {obsAt : String} {docs : List Doc} :
    ∀ {db db2 : DB} {n c u : Nat} (seen : List Nat),
      runSync runId obsAt db docs = .ok (db2, n, c, u) →
      (∀ i, classConflict db runId i = true ↔ i ∈ seen) →
      (docs.map Doc.id).Nodup ∧ ∀ i ∈ docs.map Doc.id, i ∉ seen := by
  induction docs with
  | nil => intro db db2 n c u seen h hinv; simp
  | cons d rest ih =>
    intro db db2 n c u seen h hinv
    unfold runSync at h
    split at h
    next e hs => simp at h
    next db1 cls hs =>
    split at h
    next e2 hr => simp at h
    next db2x nx cx ux hr =>
    obtain ⟨-, ⟨c0, hcl1, hc0run, hc0pid, -⟩, -, -, -, -, -, -⟩ := syncOne_spec hs
    have hconf := (syncOne_spec hs).2.2.1
    have hdninseen : d.id ∉ seen := by
      intro hmem
      have := (hinv d.id).mpr hmem
      rw [hconf] at this
      exact absurd this (by simp)
    have hinv1 : ∀ i, classConflict db1 runId i = true ↔ i ∈ (d.id :: seen) := by
      intro i
      rw [classConflict_classes_append hcl1]
      constructor
      · intro hh
        rcases Bool.or_eq_true_iff.mp hh with hh2 | hh2
        · exact List.mem_cons.mpr (Or.inr ((hinv i).mp hh2))
        · have := (Bool.and_eq_true _ _).mp hh2
          have h3 : c0.paperless_id = i := by simpa using this.2
          exact List.mem_cons.mpr (Or.inl (by rw [← h3, hc0pid]))
      · intro hh
        rcases List.mem_cons.mp hh with hh | hh
        · apply Bool.or_eq_true_iff.mpr
          right
          simp [hc0run, hc0pid, hh]
        · exact Bool.or_eq_true_iff.mpr (Or.inl ((hinv i).mpr hh))
    obtain ⟨hnd, hnotin⟩ := ih (d.id :: seen) hr hinv1
    constructor
    · simp only [List.map_cons, List.nodup_cons]
      refine ⟨?_, hnd⟩
      intro hmem
      exact (hnotin d.id hmem) (List.mem_cons_self _ _)
    · intro i hi
      simp only [List.map_cons, List.mem_cons] at hi
      rcases hi with rfl | hi
      · exact hdninseen
      · intro hmem
        exact (hnotin i hi) (List.mem_cons.mpr (Or.inr hmem))

theorem runSync_fresh_nodup {runId : Nat} {obsAt : String} {docs : List Doc}
    {db db2 : DB} {n c u : Nat}
    (hfresh : runFresh db runId)
    (h : runSync runId obsAt db docs = .ok (db2, n, c, u)) :
    (docs.map Doc.id).Nodup := by
  have hinv : ∀ i, classConflict db runId i = true ↔ i ∈ ([] : List Nat) := by
    intro i
    simp only [List.not_mem_nil, iff_false]
    intro hh
    unfold classConflict at hh
    obtain ⟨c, hc, hcp⟩ := List.any_eq_true.mp hh
    exact hfresh c hc (by simpa using ((Bool.and_eq_true _ _).mp hcp).1)
  exact (runSync_ok_nodup_aux [] h hinv).1

theorem syncOne_total {runId : Nat} {obsAt : String} {db : DB} {d : Doc}
    (hc : classConflict db runId d.id = false) :
    ∃ db1 cls, syncOne runId obsAt db d = .ok (db1, cls) := by
  unfold syncOne
  cases hf : findTracked db d.id with
  | none =>
    refine ⟨{ db with
        tracked := db.tracked ++ [(d.id, newTrackedRow runId obsAt d (stable_fingerprint d))],
        classes := db.classes ++ [classRowNew runId obsAt d (stable_fingerprint d)] },
      "new", ?_⟩
    simp [insertClass, Except.map, classConflict, classRowNew, hc.symm ▸ hc, show
      db.classes.any (fun c => c.run_id == runId && c.paperless_id == d.id) = false from hc]
  | some prev =>
    refine ⟨{ (updateTracked db d.id (seenUpdate runId obsAt d (stable_fingerprint d))) with
        classes := db.classes ++ [classRowSeen runId obsAt d
          (if prev.current_fingerprint ≠ stable_fingerprint d then "changed" else "unchanged")
          (detect_changed_fields prev d) prev.current_fingerprint (stable_fingerprint d)] },
      (if prev.current_fingerprint ≠ stable_fingerprint d then "changed" else "unchanged"), ?_⟩
    simp [insertClass, Except.map, updateTracked, classConflict, classRowSeen, show
      db.classes.any (fun c => c.run_id == runId && c.paperless_id == d.id) = false from hc]

theorem syncOne_unchanged {runId : Nat} {obsAt : String} {db : DB} {d : Doc}
    {row : TrackedRow}
    (hf : findTracked db d.id = some row)
    (hfp : row.current_fingerprint = stable_fingerprint d)
    (hc : classConflict db runId d.id = false) :
    ∃ db1, syncOne runId obsAt db d = .ok (db1, "unchanged") := by
  refine ⟨{ (updateTracked db d.id (seenUpdate runId obsAt d (stable_fingerprint d))) with
      classes := db.classes ++ [classRowSeen runId obsAt d "unchanged"
        (detect_changed_fields row d) (stable_fingerprint d) (stable_fingerprint d)] }, ?_⟩
  simp only [syncOne, hf]
  simp [hfp, insertClass, Except.map, updateTracked, classConflict, classRowSeen, show
    db.classes.any (fun c => c.run_id == runId && c.paperless_id == d.id) = false from hc]

theorem runSync_total {runId : Nat} {obsAt : String} : ∀ (docs : List Doc) (db : DB),
    (docs.map Doc.id).Nodup →
    (∀ i ∈ docs.map Doc.id, classConflict db runId i = false) →
    ∃ db2 n c u, runSync runId obsAt db docs = .ok (db2, n, c, u) := by
  intro docs
  induction docs with
  | nil => intro db _ _; exact ⟨db, 0, 0, 0, rfl⟩
  | cons d rest ih =>
    intro db hnd hcf
    obtain ⟨db1, cls, hs⟩ := @syncOne_total runId obsAt db d (hcf d.id (by simp))
    obtain ⟨-, ⟨c0, hcl1, hc0run, hc0pid, -⟩, -, -, -, -, -, -⟩ := syncOne_spec hs
    simp only [List.map_cons, List.nodup_cons] at hnd
    have hcf2 : ∀ i ∈ rest.map Doc.id, classConflict db1 runId i = false := by
      intro i hi
      rw [classConflict_classes_append hcl1]
      have h1 : classConflict db runId i = false := hcf i (by simp [hi])
      have h2 : ¬ d.id = i := fun hh => hnd.1 (hh ▸ hi)
      simp [h1, hc0pid, h2]
    obtain ⟨db2, n2, c2, u2, hr⟩ := ih db1 hnd.2 hcf2
    refine ⟨db2, (if cls = "new" then 1 else 0) + n2, (if cls = "changed" then 1 else 0) + c2,
      (if cls = "unchanged" then 1 else 0) + u2, ?_⟩
    simp [runSync, hs, hr]

theorem runSync_all_unchanged {runId : Nat} {obsAt : String} :
    ∀ (docs : List Doc) (db : DB),
    (docs.map Doc.id).Nodup →
    (∀ i ∈ docs.map Doc.id, classConflict db runId i = false) →
    (∀ d ∈ docs, ∃ row, findTracked db d.id = some row ∧
        row.current_fingerprint = stable_fingerprint d) →
    ∃ db2, runSync runId obsAt db docs = .ok (db2, 0, 0, docs.length) ∧
      ∀ cr ∈ db2.classes, cr ∈ db.classes ∨ cr.classification = "unchanged" := by
  intro docs
  induction docs with
  | nil => intro db _ _ _; exact ⟨db, rfl, fun cr hcr => Or.inl hcr⟩
  | cons d rest ih =>
    intro db hnd hcf hfp
    obtain ⟨row, hfrow, hfprow⟩ := hfp d (by simp)
    obtain ⟨db1, hs⟩ := @syncOne_unchanged runId obsAt db d row hfrow hfprow (hcf d.id (by simp))
    obtain ⟨-, ⟨c0, hcl1, hc0run, hc0pid, hc0cls⟩, -, -, hother1, -, -, -⟩ := syncOne_spec hs
    simp only [List.map_cons, List.nodup_cons] at hnd
    have hcf2 : ∀ i ∈ rest.map Doc.id, classConflict db1 runId i = false := by
      intro i hi
      rw [classConflict_classes_append hcl1]
      have h1 : classConflict db runId i = false := hcf i (by simp [hi])
      have h2 : ¬ d.id = i := fun hh => hnd.1 (hh ▸ hi)
      simp [h1, hc0pid, h2]
    have hfp2 : ∀ e ∈ rest, ∃ row2, findTracked db1 e.id = some row2 ∧
        row2.current_fingerprint = stable_fingerprint e := by
      intro e he
      have hne : e.id ≠ d.id := by
        intro hh
        exact hnd.1 (hh ▸ List.mem_map_of_mem Doc.id he)
      obtain ⟨row2, hf2, hfp2x⟩ := hfp e (List.mem_cons_of_mem d he)
      exact ⟨row2, (hother1 e.id hne).trans hf2, hfp2x⟩
    obtain ⟨db2, hr, hcls2⟩ := ih db1 hnd.2 hcf2 hfp2
    refine ⟨db2, ?_, ?_⟩
    · simp [runSync, hs, hr]
      omega
    · intro cr hcr
      rcases hcls2 cr hcr with hcr2 | hcr2
      · rw [hcl1] at hcr2
        rcases List.mem_append.mp hcr2 with hcr3 | hcr3
        · exact Or.inl hcr3
        · right
          rw [show cr = c0 by simpa using hcr3]
          exact hc0cls
      · exact Or.inr hcr2

/-! mark_missing_documents lemmas. -/

theorem insertClassOrIgnore_tracked (db : DB) (c : ClassRow) :
    (insertClassOrIgnore db c).tracked = db.tracked := by
  unfold insertClassOrIgnore; split <;> rfl

theorem findTracked_tracked_eq {db1 db2 : DB} (h : db1.tracked = db2.tracked) (q : Nat) :
    findTracked db1 q = findTracked db2 q := by
  unfold findTracked; rw [h]

theorem markMissingStep_find_other {runId : Nat} {nowIso : String} {acc : DB}
    {pid q : Nat} (h : q ≠ pid) :
    findTracked (markMissingStep runId nowIso acc pid) q = findTracked acc q := by
  unfold markMissingStep
  rw [findTracked_tracked_eq (insertClassOrIgnore_tracked _ _) q]
  exact @findTracked_update_other acc pid q (softDelete runId nowIso) h

theorem markMissingStep_find_self {runId : Nat} {nowIso : String} {acc : DB} {pid : Nat} :
    findTracked (markMissingStep runId nowIso acc pid) pid
      = (findTracked acc pid).map (softDelete runId nowIso) := by
  unfold markMissingStep
  rw [findTracked_tracked_eq (insertClassOrIgnore_tracked _ _) pid]
  unfold findTracked updateTracked
  simp only []
  rw [find?_update]
  simp only [if_pos rfl]
  cases acc.tracked.find? (fun p => p.1 == pid) <;> simp

theorem markMissingStep_classes (runId : Nat) (nowIso : String) (acc : DB) (pid : Nat) :
    (markMissingStep runId nowIso acc pid).classes = acc.classes ∨
    (markMissingStep runId nowIso acc pid).classes
      = acc.classes ++ [missingClassRow runId pid nowIso] := by
  unfold markMissingStep insertClassOrIgnore
  split
  · left; rfl
  · right; rfl

theorem markMissingStep_classes_fresh {runId : Nat} {nowIso : String} {acc : DB}
    {pid : Nat} (hc : classConflict acc runId pid = false) :
    (markMissingStep runId nowIso acc pid).classes
      = acc.classes ++ [missingClassRow runId pid nowIso] := by
  unfold markMissingStep insertClassOrIgnore
  rw [if_neg ?_]
  · rfl
  · simp only [classConflict, updateTracked, missingClassRow]
    simpa [classConflict] using hc

theorem foldl_markMissing_find_not_mem {runId : Nat} {nowIso : String} :
    ∀ (l : List Nat) (db : DB) (pid : Nat), pid ∉ l →
      findTracked (l.foldl (markMissingStep runId nowIso) db) pid = findTracked db pid ∧
      (l.foldl (markMissingStep runId nowIso) db).classes.filter
          (fun c => c.paperless_id == pid)
        = db.classes.filter (fun c => c.paperless_id == pid) := by
  intro l
  induction l with
  | nil => intro db pid _; exact ⟨rfl, rfl⟩
  | cons x rest ih =>
    intro db pid hmem
    have hx : pid ≠ x := fun h => hmem (h ▸ List.mem_cons_self x rest)
    have hrest : pid ∉ rest := fun h => hmem (List.mem_cons_of_mem x h)
    rw [List.foldl_cons]
    obtain ⟨h1, h2⟩ := ih (markMissingStep runId nowIso db x) pid hrest
    refine ⟨h1.trans (markMissingStep_find_other hx), h2.trans ?_⟩
    rcases markMissingStep_classes runId nowIso db x with hcl | hcl
    · rw [hcl]
    · rw [hcl, List.filter_append]
      have hxb : ((missingClassRow runId x nowIso).paperless_id == pid) = false := by
        simpa [missingClassRow] using hx.symm
      simp [hxb]

theorem foldl_markMissing_find_mem {runId : Nat} {nowIso : String} :
    ∀ (l : List Nat) (db : DB) (pid : Nat) (r : TrackedRow), l.Nodup → pid ∈ l →
      classConflict db runId pid = false →
      findTracked db pid = some r →
      findTracked (l.foldl (markMissingStep runId nowIso) db) pid
        = some (softDelete runId nowIso r) ∧
      (l.foldl (markMissingStep runId nowIso) db).classes.filter
          (fun c => c.paperless_id == pid)
        = db.classes.filter (fun c => c.paperless_id == pid)
          ++ [missingClassRow runId pid nowIso] := by
  intro l
  induction l with
  | nil => intro db pid r _ hmem; cases hmem
  | cons x rest ih =>
    intro db pid r hnd hmem hc hf
    rw [List.foldl_cons]
    rcases List.mem_cons.mp hmem with rfl | hmem2
    · have hrest : pid ∉ rest := (List.nodup_cons.mp hnd).1
      obtain ⟨g1, g2⟩ := foldl_markMissing_find_not_mem rest
        (markMissingStep runId nowIso db pid) pid hrest
      constructor
      · rw [g1, markMissingStep_find_self, hf]
        rfl
      · rw [g2, markMissingStep_classes_fresh hc, List.filter_append]
        simp [missingClassRow]
    · have hx : pid ≠ x := by
        rintro rfl
        exact (List.nodup_cons.mp hnd).1 hmem2
      have hxb : (x == pid) = false := by simpa using hx.symm
      have hc2 : classConflict (markMissingStep runId nowIso db x) runId pid = false := by
        rcases markMissingStep_classes runId nowIso db x with hcl | hcl
        · unfold classConflict at hc ⊢
          rw [hcl]; exact hc
        · unfold classConflict at hc ⊢
          rw [hcl, List.any_append]
          simp only [hc, Bool.false_or, List.any_cons, List.any_nil, Bool.or_false]
          simp [missingClassRow, hxb]
      have hf2 : findTracked (markMissingStep runId nowIso db x) pid = some r :=
        (markMissingStep_find_other hx).trans hf
      have hfil : (markMissingStep runId nowIso db x).classes.filter
          (fun c => c.paperless_id == pid)
          = db.classes.filter (fun c => c.paperless_id == pid) := by
        rcases markMissingStep_classes runId nowIso db x with hcl | hcl
        · rw [hcl]
        · rw [hcl, List.filter_append]
          have hxb2 : ((missingClassRow runId x nowIso).paperless_id == pid) = false := by
            simpa [missingClassRow] using hx.symm
          simp [hxb2]
      obtain ⟨g1, g2⟩ := ih (markMissingStep runId nowIso db x) pid r
        (List.nodup_cons.mp hnd).2 hmem2 hc2 hf2
      exact ⟨g1, by rw [g2, hfil]⟩

theorem foldl_markMissing_fp {runId : Nat} {nowIso : String} :
    ∀ (l : List Nat) (db : DB) (pid : Nat),
      ((findTracked (l.foldl (markMissingStep runId nowIso) db) pid).map
        (fun r => r.current_fingerprint))
        = (findTracked db pid).map (fun r => r.current_fingerprint) := by
  intro l
  induction l with
  | nil => intro db pid; rfl
  | cons x rest ih =>
    intro db pid
    rw [List.foldl_cons, ih]
    by_cases h : pid = x
    · subst h
      rw [markMissingStep_find_self]
      cases findTracked db pid <;> rfl
    · rw [markMissingStep_find_other h]

theorem activeIds_nodup {db : DB} (hnd : nodupKeys db) : (activeIds db).Nodup := by
  unfold activeIds
  unfold nodupKeys at hnd
  exact hnd.sublist (List.Sublist.map Prod.fst (List.filter_sublist db.tracked))

theorem mem_missingIds {db : DB} {observed : List Nat} {i : Nat} :
    i ∈ missingIds db observed ↔ i ∈ activeIds db ∧ i ∉ observed := by
  unfold missingIds
  rw [List.mem_insertionSort, List.mem_filter]
  simp [List.contains]

theorem missingIds_nodup {db : DB} {observed : List Nat} (hnd : nodupKeys db) :
    (missingIds db observed).Nodup := by
  unfold missingIds
  exact ((List.perm_insertionSort _ _).nodup_iff).mpr
    ((activeIds_nodup hnd).filter _)

theorem missingIds_length {db : DB} {observed : List Nat} (hnd : nodupKeys db) :
    (missingIds db observed).length
      = ((activeIds db).toFinset \ observed.toFinset).card := by
  unfold missingIds
  rw [List.length_insertionSort]
  have hfn : ((activeIds db).filter (fun i => !(observed.contains i))).Nodup :=
    (activeIds_nodup hnd).filter _
  rw [← List.toFinset_card_of_nodup hfn, List.toFinset_filter, Finset.sdiff_eq_filter]
  congr 1
  apply Finset.filter_congr
  intro x _
  simp [List.contains]

/-! The transactional main pipeline of init_ocr_tracking_db.py. -/

/-- last_insert_rowid of the AUTOINCREMENT runs table. -/
def newRunId (db : DB) : Nat := db.runs.foldl (fun m r => max m r.id) 0 + 1

/-- The fresh run row inserted at the start of main (completed_at NULL). -/
def freshRunRow (rid : Nat) (startIso runType : String) : RunRow :=
  { id := rid
    started_at := startIso
    completed_at := none
    run_type := runType
    total_documents := 0
    new_documents := 0
    changed_documents := 0
    unchanged_documents := 0
    missing_documents := 0 }

/-- INSERT INTO runs ... followed by SELECT last_insert_rowid(). -/
def insertRun (db : DB) (startIso runType : String) : DB × Nat :=
  ({ db with runs := db.runs ++ [freshRunRow (newRunId db) startIso runType] },
   newRunId db)

/-- The completion UPDATE on the runs row, executed last before commit. -/
def completeRun (db : DB) (rid : Nat) (endIso : String)
    (total n c u m : Nat) : DB :=
  { db with runs := db.runs.map (fun r =>
      if r.id == rid then
        { r with
          completed_at := some endIso
          total_documents := total
          new_documents := n
          changed_documents := c
          unchanged_documents := u
          missing_documents := m }
      else r) }

/-- The body of the try-block of main: insert the run row, run_sync,
mark_missing_documents, then mark the run complete.  Any error escapes. -/
def mainPipeline (db : DB) (docs : List Doc) (startIso endIso runType : String) :
    Except String (DB × Nat × Nat × Nat × Nat) :=
  let pr := insertRun db startIso runType
  match runSync pr.2 startIso pr.1 docs with
  | .error e => .error e
  | .ok (db2, n, c, u) =>
    let mm := markMissing db2 pr.2 (docs.map (fun d => d.id)) startIso
    .ok (completeRun mm.1 pr.2 endIso docs.length n c u mm.2, n, c, u, mm.2)

/-- main with its commit/rollback structure: a successful pipeline is
committed, any exception rolls the visible database back to its pre-run
state and yields no summary. -/
def execMain (db : DB) (docs : List Doc) (startIso endIso runType : String) :
    DB × Option (Nat × Nat × Nat × Nat) :=
  match mainPipeline db docs startIso endIso runType with
  | .ok (db2, n, c, u, m) => (db2, some (n, c, u, m))
  | .error _ => (db, none)

/-! Remaining sync helper lemmas. -/

theorem runFresh_conflict {db : DB} {runId : Nat} (h : runFresh db runId) :
    ∀ i, classConflict db runId i = false := by
  intro i
  by_cases hc : classConflict db runId i = true
  · obtain ⟨cr, hcr, hp⟩ := List.any_eq_true.mp hc
    exact absurd (by simpa using ((Bool.and_eq_true _ _).mp hp).1) (h cr hcr)
  · simpa using hc

theorem runSync_fp {runId : Nat} {obsAt : String} :
    ∀ {docs : List Doc} {db db2 : DB} {n c u : Nat},
    (docs.map Doc.id).Nodup →
    runSync runId obsAt db docs = .ok (db2, n, c, u) →
    ∀ d ∈ docs, ∃ row, findTracked db2 d.id = some row ∧
      row.current_fingerprint = stable_fingerprint d := by
  intro docs
  induction docs with
  | nil => intro db db2 n c u _ h d hd; cases hd
  | cons dd rest ih =>
    intro db db2 n c u hnd h d hd
    unfold runSync at h
    split at h
    next e hs => simp at h
    next db1 cls hs =>
    split at h
    next e2 hr => simp at h
    next db2x nx cx ux hr =>
    simp only [Except.ok.injEq, Prod.mk.injEq] at h
    obtain ⟨rfl, -, -, -⟩ := h
    simp only [List.map_cons, List.nodup_cons] at hnd
    rcases List.mem_cons.mp hd with rfl | hd2
    · obtain ⟨-, -, -, ⟨row, hfindrow, hfp, -⟩, -, -, -, -⟩ := syncOne_spec hs
      obtain ⟨-, -, hother2, -, -, -⟩ := runSync_spec hr
      refine ⟨row, ?_, hfp⟩
      rw [hother2 d.id hnd.1]
      exact hfindrow
    · exact ih hnd.2 hr d hd2

theorem find?_assoc_unique :
    ∀ (l : List (Nat × TrackedRow)) {pid : Nat} {r2 : TrackedRow} {p0 : Nat × TrackedRow},
    (l.map Prod.fst).Nodup → (pid, r2) ∈ l →
    l.find? (fun p => p.1 == pid) = some p0 → p0 = (pid, r2) := by
  intro l
  induction l with
  | nil => intro pid r2 p0 _ hmem; cases hmem
  | cons hd tl ih =>
    intro pid r2 p0 hnd hmem hf
    simp only [List.map_cons, List.nodup_cons] at hnd
    by_cases hk : hd.1 = pid
    · have e1 : (hd.1 == pid) = true := by simpa using hk
      simp only [List.find?, e1] at hf
      rcases List.mem_cons.mp hmem with heq | hmem2
    <;> first
      | (exact (Option.some.injEq _ _ ▸ hf) ▸ heq.symm)
      | (exact absurd (hk ▸ List.mem_map_of_mem Prod.fst hmem2) hnd.1)
    · have e1 : (hd.1 == pid) = false := by simpa using hk
      simp only [List.find?, e1] at hf
      rcases List.mem_cons.mp hmem with heq | hmem2
      · exact absurd (congrArg Prod.fst heq.symm) hk
      · exact ih hnd.2 hmem2 hf

theorem findTracked_unique {db : DB} {pid : Nat} {r r2 : TrackedRow}
    (hnd : nodupKeys db) (hmem : (pid, r2) ∈ db.tracked)
    (hf : findTracked db pid = some r) : r2 = r := by
  unfold findTracked at hf
  cases hfin : db.tracked.find? (fun p => p.1 == pid) with
  | none => rw [hfin] at hf; exact Option.noConfusion hf
  | some p0 =>
    rw [hfin] at hf
    simp only [Option.map] at hf
    have := find?_assoc_unique db.tracked hnd hmem hfin
    rw [this] at hf
    simpa using hf

/-! Concrete inputs shared by the witnesses. -/

def dbEmpty : DB := { runs := [], tracked := [], classes := [] }

def docA : Doc :=
  { id := 1
    title := "a"
    mime_type := "application/pdf"
    original_filename := "a.pdf"
    archive_filename := "a-arch.pdf"
    page_count := some 2
    modified := some "m1"
    content_length := 10 }

def c2db1 : DB :=
  match runSync 1 "t0" dbEmpty [docA] with
  | .ok p => p.1
  | .error _ => dbEmpty

/-- Claim C2: for every observed document list with unique ids and every
prior tracked state, one sync run satisfies new + changed + unchanged =
number of observed documents, and the missing count of the companion
mark_missing pass equals the cardinality of the previously active tracked
id set minus the observed id set. -/
theorem c2_sync_classification_counts {runId : Nat} {obsAt : String}
    {db db1 : DB} {docs : List Doc} {n c u : Nat} (nowIso : String)
    (hnd : nodupKeys db)
    (hok : runSync runId obsAt db docs = .ok (db1, n, c, u)) :
    n + c + u = docs.length ∧
    (markMissing db1 runId (docs.map Doc.id) nowIso).2
      = ((activeIds db).toFinset \ (docs.map Doc.id).toFinset).card := by
  refine ⟨runSync_counts hok, ?_⟩
  obtain ⟨-, -, -, -, hactive, hnd2⟩ := runSync_spec hok
  show (missingIds db1 (docs.map Doc.id)).length = _
  rw [missingIds_length (hnd2 hnd)]
  congr 1
  ext i
  simp only [Finset.mem_sdiff, List.mem_toFinset]
  constructor
  · rintro ⟨hai, hno⟩
    rcases (hactive i).mp hai with h2 | h2
    · exact absurd h2 hno
    · exact ⟨h2, hno⟩
  · rintro ⟨hai, hno⟩
    exact ⟨(hactive i).mpr (Or.inr hai), hno⟩

theorem c2_sync_classification_counts_witness :
    1 + 0 + 0 = ([docA] : List Doc).length ∧
    (markMissing c2db1 1 (([docA] : List Doc).map Doc.id) "t1").2
      = ((activeIds dbEmpty).toFinset \ ((([docA] : List Doc).map Doc.id)).toFinset).card :=
  @c2_sync_classification_counts 1 "t0" dbEmpty c2db1 [docA] 1 0 0 "t1"
    (by unfold nodupKeys; decide) (by rfl)

/-- Claim C6: running the sync engine twice in a row over the identical
observed set (with the mark_missing pass in between, as main does) yields
changed = 0 and unchanged = len(observed) on the second run, with every
classification the second run records being unchanged. -/
theorem c6_sync_idempotent {r1 r2 : Nat} {obs1 now1 : String}
    {db0 db1 db2m : DB} {n1 c1 u1 m1 : Nat} {docs : List Doc} (obs2 : String)
    (hnd0 : nodupKeys db0)
    (hfresh1 : runFresh db0 r1)
    (hok1 : runSync r1 obs1 db0 docs = .ok (db1, n1, c1, u1))
    (hmm : markMissing db1 r1 (docs.map Doc.id) now1 = (db2m, m1))
    (hfresh2 : runFresh db2m r2) :
    ∃ db3, runSync r2 obs2 db2m docs = .ok (db3, 0, 0, docs.length) ∧
      ∀ cr ∈ db3.classes, cr.run_id = r2 → cr.classification = "unchanged" := by
  have hndids : (docs.map Doc.id).Nodup := runSync_fresh_nodup hfresh1 hok1
  have hdb2m : db2m = (missingIds db1 (docs.map Doc.id)).foldl
      (markMissingStep r1 now1) db1 := by
    have := congrArg Prod.fst hmm
    exact this.symm
  have hfp2 : ∀ d ∈ docs, ∃ row, findTracked db2m d.id = some row ∧
      row.current_fingerprint = stable_fingerprint d := by
    intro d hd
    obtain ⟨row, hfrow, hfprow⟩ := runSync_fp hndids hok1 d hd
    have hmap := @foldl_markMissing_fp r1 now1 (missingIds db1 (docs.map Doc.id)) db1 d.id
    rw [← hdb2m] at hmap
    rw [hfrow] at hmap
    simp only [Option.map] at hmap
    cases hfind2 : findTracked db2m d.id with
    | none => rw [hfind2] at hmap; exact Option.noConfusion hmap
    | some row2 =>
      rw [hfind2] at hmap
      simp only [Option.map] at hmap
      exact ⟨row2, rfl, by simpa [hfprow] using hmap⟩
  obtain ⟨db3, hok3, hcls3⟩ := runSync_all_unchanged docs db2m hndids
    (fun i _ => runFresh_conflict hfresh2 i) hfp2
  refine ⟨db3, hok3, ?_⟩
  intro cr hcr hrun
  rcases hcls3 cr hcr with hin | hcl
  · exact absurd hrun (hfresh2 cr hin)
  · exact hcl

def c6db1 : DB :=
  match runSync 1 "s1" dbEmpty [docA] with
  | .ok p => p.1
  | .error _ => dbEmpty

def c6db2m : DB := (markMissing c6db1 1 (([docA] : List Doc).map Doc.id) "s1").1

theorem c6_sync_idempotent_witness :
    ∃ db3, runSync 2 "s2" c6db2m [docA] = .ok (db3, 0, 0, ([docA] : List Doc).length) ∧
      ∀ cr ∈ db3.classes, cr.run_id = 2 → cr.classification = "unchanged" :=
  @c6_sync_idempotent 1 2 "s1" "s1" dbEmpty c6db1 c6db2m 1 0 0 0 [docA] "s2"
    (by unfold nodupKeys; decide)
    (by unfold runFresh; decide) (by rfl) (by decide)
    (by unfold runFresh; decide)

/-- Claim C7: if any persistence step of a sync run raises, the whole run
is rolled back: the visible database afterwards is exactly the pre-run
database (so no partial writes of the run, and no run row — in particular
none marked complete — is visible) and no summary is produced. -/
theorem c7_sync_rollback {db : DB} {docs : List Doc}
    {startIso endIso runType e : String}
    (herr : mainPipeline db docs startIso endIso runType = .error e) :
    execMain db docs startIso endIso runType = (db, none) ∧
    (∀ rr ∈ (execMain db docs startIso endIso runType).1.runs, rr ∈ db.runs) := by
  unfold execMain
  rw [herr]
  exact ⟨rfl, fun rr h => h⟩

theorem c7_sync_rollback_witness :
    execMain dbEmpty [docA, docA] "s" "e" "sync" = (dbEmpty, none) ∧
    (∀ rr ∈ (execMain dbEmpty [docA, docA] "s" "e" "sync").1.runs, rr ∈ dbEmpty.runs) :=
  c7_sync_rollback (show mainPipeline dbEmpty [docA, docA] "s" "e" "sync"
    = .error "UNIQUE constraint failed: document_classifications.run_id, document_classifications.paperless_id"
    by rfl)

/-- Claim C9: mark_missing_documents only considers is_active = 1 rows, so
an id soft-deleted by an earlier run is not touched or counted again: an
active absent id is soft-deleted and given a missing classification in the
run that notices its absence, while an already-inactive id keeps its row,
is excluded from the missing set, and gains no new classification row. -/
theorem c9_mark_missing_inactive_idempotent {db : DB} {runId : Nat}
    {observed : List Nat} {nowIso : String} {pid : Nat} {r : TrackedRow}
    (hnd : nodupKeys db)
    (hfresh : classConflict db runId pid = false)
    (hf : findTracked db pid = some r) :
    (r.is_active = true → pid ∉ observed →
      findTracked (markMissing db runId observed nowIso).1 pid
          = some (softDelete runId nowIso r) ∧
        pid ∈ missingIds db observed ∧
        (markMissing db runId observed nowIso).1.classes.filter
            (fun c => c.paperless_id == pid)
          = db.classes.filter (fun c => c.paperless_id == pid)
            ++ [missingClassRow runId pid nowIso]) ∧
    (r.is_active = false →
      findTracked (markMissing db runId observed nowIso).1 pid = some r ∧
        pid ∉ missingIds db observed ∧
        (markMissing db runId observed nowIso).1.classes.filter
            (fun c => c.paperless_id == pid)
          = db.classes.filter (fun c => c.paperless_id == pid)) := by
  constructor
  · intro hact hobs
    have hmem : (pid, r) ∈ db.tracked := by
      unfold findTracked at hf
      cases hfin : db.tracked.find? (fun p => p.1 == pid) with
      | none => rw [hfin] at hf; exact Option.noConfusion hf
      | some p0 =>
        rw [hfin] at hf
        simp only [Option.map] at hf
        have hp1 : p0.1 = pid := by simpa using List.find?_some hfin
        have hp2 : p0.2 = r := by simpa using hf
        have hmem0 := List.mem_of_find?_eq_some hfin
        rwa [show p0 = (pid, r) from Prod.ext hp1 hp2] at hmem0
    have hactive : pid ∈ activeIds db := mem_activeIds.mpr ⟨r, hmem, hact⟩
    have hmiss : pid ∈ missingIds db observed := mem_missingIds.mpr ⟨hactive, hobs⟩
    obtain ⟨g1, g2⟩ := foldl_markMissing_find_mem (missingIds db observed) db pid r
      (missingIds_nodup hnd) hmiss hfresh hf
    exact ⟨g1, hmiss, g2⟩
  · intro hinact
    have hnotactive : pid ∉ activeIds db := by
      intro hmemact
      obtain ⟨r2, hmem2, hact2⟩ := mem_activeIds.mp hmemact
      rw [findTracked_unique hnd hmem2 hf, hinact] at hact2
      exact Bool.noConfusion hact2
    have hnotmiss : pid ∉ missingIds db observed := by
      intro hmem
      exact hnotactive (mem_missingIds.mp hmem).1
    obtain ⟨g1, g2⟩ := foldl_markMissing_find_not_mem (missingIds db observed) db pid hnotmiss
    exact ⟨g1.trans hf, hnotmiss, g2⟩

def c9row : TrackedRow :=
  { first_seen_run_id := 1
    last_seen_run_id := 1
    first_seen_at := "s1"
    last_seen_at := "s1"
    is_active := false
    deleted_at := some "s2"
    deleted_in_run_id := some 2
    title := "a"
    mime_type := "application/pdf"
    original_filename := "a.pdf"
    archive_filename := "a-arch.pdf"
    page_count := some 2
    modified := some "m1"
    content_length := 10
    current_fingerprint := stable_fingerprint docA }

def c9db : DB := { runs := [], tracked := [(1, c9row)], classes := [] }

theorem c9_mark_missing_inactive_idempotent_witness :
    (c9row.is_active = true → 1 ∉ ([] : List Nat) →
      findTracked (markMissing c9db 3 [] "s3").1 1 = some (softDelete 3 "s3" c9row) ∧
        1 ∈ missingIds c9db [] ∧
        (markMissing c9db 3 [] "s3").1.classes.filter (fun c => c.paperless_id == 1)
          = c9db.classes.filter (fun c => c.paperless_id == 1)
            ++ [missingClassRow 3 1 "s3"]) ∧
    (c9row.is_active = false →
      findTracked (markMissing c9db 3 [] "s3").1 1 = some c9row ∧
        1 ∉ missingIds c9db [] ∧
        (markMissing c9db 3 [] "s3").1.classes.filter (fun c => c.paperless_id == 1)
          = c9db.classes.filter (fun c => c.paperless_id == 1)) :=
  @c9_mark_missing_inactive_idempotent c9db 3 [] "s3" 1 c9row
    (by unfold nodupKeys; decide) (by decide) (by decide)

/-- Claim C10: the uniqueness precondition on observed ids is load-bearing:
with a fresh run id, a duplicated id in the observed list makes run_sync
raise on the UNIQUE(run_id, paperless_id) classification insert, while
under the uniqueness precondition run_sync always returns counts. -/
theorem c10_duplicate_observed_id :
    (∀ (runId : Nat) (obsAt : String) (db : DB) (docs : List Doc),
      runFresh db runId → ¬ (docs.map Doc.id).Nodup →
      ∃ e, runSync runId obsAt db docs = .error e) ∧
    (∀ (runId : Nat) (obsAt : String) (db : DB) (docs : List Doc),
      runFresh db runId → (docs.map Doc.id).Nodup →
      ∃ db2 n c u, runSync runId obsAt db docs = .ok (db2, n, c, u)) := by
  constructor
  · intro runId obsAt db docs hfresh hdup
    cases h : runSync runId obsAt db docs with
    | error e => exact ⟨e, rfl⟩
    | ok p =>
      obtain ⟨db2, n, c, u⟩ := p
      exact absurd (runSync_fresh_nodup hfresh h) hdup
  · intro runId obsAt db docs hfresh hnd
    exact runSync_total docs db hnd (fun i _ => runFresh_conflict hfresh i)

theorem c10_duplicate_observed_id_witness :
    (∃ e, runSync 1 "t" dbEmpty [docA, docA] = .error e) ∧
    (∃ db2 n c u, runSync 1 "t" dbEmpty [docA] = .ok (db2, n, c, u)) :=
  ⟨c10_duplicate_observed_id.1 1 "t" dbEmpty [docA, docA]
      (by unfold runFresh; decide) (by decide),
   c10_duplicate_observed_id.2 1 "t" dbEmpty [docA]
      (by unfold runFresh; decide) (by decide)⟩

/-! Claim C5: malformed records during a page fetch. -/

/-- Claim C5, counterexample: a page whose first item is a well-formed
object lacking the mandatory id makes the whole page processing raise — the
normalized record of the second, valid item is not returned, so the single
malformed record does abort the whole fetch. -/
theorem c5_missing_id_counterexample :
    processPageItems [.obj [("title", JVal.str "x")], .obj [("id", JVal.num 2)]]
      = .error "Document payload missing id" := by
  rfl

/-- Claim C5 as amended: an item that is not a well-formed object is
skipped without aborting the fetch, but a well-formed object record
lacking the mandatory id aborts the whole page processing with an error
instead of being rejected alone (normalize_document raises and
fetch_all_documents does not catch it). -/
theorem c5_missing_id_aborts_fetch :
    (∀ (v : JVal) (rest : List JVal), (∀ fs, v ≠ .obj fs) →
      processPageItems (v :: rest) = processPageItems rest) ∧
    (∀ (pre post : List JVal) (fields : List (String × JVal)),
      (∃ ds, processPageItems pre = .ok ds) →
      firstPresent fields ["id"] = none →
      processPageItems (pre ++ .obj fields :: post)
        = .error "Document payload missing id") := by
  constructor
  · intro v rest hv
    cases v with
    | obj fs => exact absurd rfl (hv fs)
    | null => rfl
    | str s => rfl
    | num n => rfl
    | bool b => rfl
    | arr items => rfl
  · intro pre
    induction pre with
    | nil =>
      intro post fields _ hnoid
      show processPageItems (.obj fields :: post) = _
      unfold processPageItems normalize_document
      simp only [hnoid]
    | cons item rest ih =>
      intro post fields hok hnoid
      obtain ⟨ds, hds⟩ := hok
      cases item with
      | obj f2 =>
        rw [List.cons_append]
        unfold processPageItems at hds ⊢
        cases hn : normalize_document f2 with
        | error e =>
          simp only [hn] at hds
          exact Except.noConfusion hds
        | ok d =>
          simp only [hn] at hds ⊢
          cases hrest : processPageItems rest with
          | error e =>
            simp only [hrest] at hds
            exact Except.noConfusion hds
          | ok ds2 => simp only [ih post fields ⟨ds2, hrest⟩ hnoid]
      | null => exact ih post fields ⟨ds, hds⟩ hnoid
      | str s => exact ih post fields ⟨ds, hds⟩ hnoid
      | num n => exact ih post fields ⟨ds, hds⟩ hnoid
      | bool b => exact ih post fields ⟨ds, hds⟩ hnoid
      | arr items => exact ih post fields ⟨ds, hds⟩ hnoid

theorem c5_missing_id_aborts_fetch_witness :
    processPageItems [JVal.num 7, .obj [("title", JVal.str "x")], .obj [("id", JVal.num 2)]]
      = .error "Document payload missing id" :=
  c5_missing_id_aborts_fetch.2 [JVal.num 7] [.obj [("id", JVal.num 2)]]
    [("title", JVal.str "x")] ⟨[], rfl⟩ rfl

/-! Claim C8: candidate selection. -/

def docB1 : Doc :=
  { id := 1, title := "", mime_type := "", original_filename := "",
    archive_filename := "", page_count := none, modified := none, content_length := 500 }

def docB2 : Doc :=
  { id := 2, title := "", mime_type := "", original_filename := "",
    archive_filename := "", page_count := none, modified := none, content_length := 10 }

def docB3 : Doc :=
  { id := 3, title := "", mime_type := "", original_filename := "",
    archive_filename := "", page_count := none, modified := none, content_length := 200 }

/-- Claim C8: candidate selection keeps exactly the loaded documents
without a recent history row, sorted ascending by (content_length, id)
and truncated to batch_size; on the three-document scenario with batch
size 2 and no history it returns ids 2 then 3.  Determinism is inherent:
refreshCandidates is a function of its inputs. -/
theorem c8_candidate_selection :
    (∀ (docs : List Doc) (rows : List HistRow) (now recentDays : Int) (batchSize : Nat),
      (∀ d ∈ refreshCandidates docs rows now recentDays batchSize,
        d ∈ docs ∧ isRecentId rows (now - recentDays * secondsPerDay) d.id = false) ∧
      (refreshCandidates docs rows now recentDays batchSize).Sorted candLe ∧
      (refreshCandidates docs rows now recentDays batchSize).length
        = min batchSize
            (docs.filter (fun d =>
              !(isRecentId rows (now - recentDays * secondsPerDay) d.id))).length) ∧
    refreshCandidates [docB1, docB2, docB3] [] 0 7 2 = [docB2, docB3] := by
  constructor
  · intro docs rows now recentDays batchSize
    refine ⟨?_, ?_, ?_⟩
    · intro d hd
      have hd2 : d ∈ (docs.filter (fun d =>
          !(isRecentId rows (now - recentDays * secondsPerDay) d.id))).insertionSort candLe :=
        List.mem_of_mem_take hd
      rw [List.mem_insertionSort, List.mem_filter] at hd2
      exact ⟨hd2.1, by simpa using hd2.2⟩
    · exact ((List.sorted_insertionSort candLe _).sublist (List.take_sublist _ _))
    · unfold refreshCandidates
      rw [List.length_take, List.length_insertionSort]
  · decide

theorem c8_candidate_selection_witness :
    docB2 ∈ ([docB1, docB2, docB3] : List Doc) ∧
    isRecentId [] (0 - 7 * secondsPerDay) docB2.id = false :=
  (c8_candidate_selection.1 [docB1, docB2, docB3] [] 0 7 2).1 docB2 (by decide)

/-! Worker lemmas: doc_results updates and the finalization phase. -/

theorem setRes_self (res : Nat → DocResult) (did : Nat) (v : DocResult) :
    setRes res did v did = v := by
  unfold setRes; simp

theorem setRes_other {res : Nat → DocResult} {did q : Nat} {v : DocResult}
    (h : q ≠ did) : setRes res did v q = res q := by
  unfold setRes; simp [h]

theorem foldl_setRes_skip {v : DocResult} :
    ∀ (l : List Nat) (res : Nat → DocResult) {did : Nat}, did ∉ l →
      (l.foldl (fun a d => setRes a d v) res) did = res did := by
  intro l
  induction l with
  | nil => intro res did _; rfl
  | cons x rest ih =>
    intro res did h
    rw [List.foldl_cons]
    have hx : did ≠ x := fun hh => h (hh ▸ List.mem_cons_self x rest)
    rw [ih _ (fun hh => h (List.mem_cons_of_mem x hh)), setRes_other hx]

theorem foldl_setRes_mem {v : DocResult} :
    ∀ (l : List Nat) (res : Nat → DocResult) {did : Nat}, did ∈ l →
      (l.foldl (fun a d => setRes a d v) res) did = v := by
  intro l
  induction l with
  | nil => intro res did h; cases h
  | cons x rest ih =>
    intro res did h
    rw [List.foldl_cons]
    rcases List.mem_cons.mp h with rfl | h2
    · by_cases hmem : did ∈ rest
      · exact ih _ hmem
      · rw [foldl_setRes_skip rest _ hmem, setRes_self]
    · exact ih _ h2

theorem finalize_preserve (env : Env) :
    ∀ (l : List Nat) (t : Nat) (res : Nat → DocResult) {did : Nat},
      (res did).status ≠ .pending →
      ((finalizePhase env l t res).2) did = res did := by
  intro l
  induction l with
  | nil => intro t res did _; rfl
  | cons x rest ih =>
    intro t res did hnp
    unfold finalizePhase
    by_cases hx : (res x).status = .pending
    · rw [if_pos hx]
      have hne : did ≠ x := fun hh => hnp (hh ▸ hx)
      by_cases hst : env.stop t
      · rw [if_pos hst, ih _ _ (by rwa [setRes_other hne]), setRes_other hne]
      · rw [if_neg hst, ih _ _ (by rwa [setRes_other hne]), setRes_other hne]
    · rw [if_neg hx]
      exact ih _ _ hnp

theorem finalize_total (env : Env) :
    ∀ (l : List Nat) (t : Nat) (res : Nat → DocResult) {did : Nat}, did ∈ l →
      (((finalizePhase env l t res).2) did).status ≠ .pending := by
  intro l
  induction l with
  | nil => intro t res did h; cases h
  | cons x rest ih =>
    intro t res did h
    unfold finalizePhase
    by_cases hx : (res x).status = .pending
    · rw [if_pos hx]
      rcases List.mem_cons.mp h with rfl | h2
      · by_cases hst : env.stop t
        · rw [if_pos hst, finalize_preserve env rest _ _ (by rw [setRes_self]; simp),
            setRes_self]
          simp
        · rw [if_neg hst, finalize_preserve env rest _ _ (by rw [setRes_self]; simp),
            setRes_self]
          simp
      · by_cases hst : env.stop t
        · rw [if_pos hst]; exact ih _ _ h2
        · rw [if_neg hst]; exact ih _ _ h2
    · rw [if_neg hx]
      rcases List.mem_cons.mp h with rfl | h2
      · rw [finalize_preserve env rest _ _ hx]
        exact hx
      · exact ih _ _ h2

theorem finalize_stopped (env : Env) :
    ∀ (l : List Nat) (t : Nat) (res : Nat → DocResult) {did : Nat},
      (∀ s, t ≤ s → env.stop s = true) →
      did ∈ l → (res did).status = .pending →
      ((finalizePhase env l t res).2) did = ⟨.failed, "stopped_before_completion"⟩ := by
  intro l
  induction l with
  | nil => intro t res did _ h; cases h
  | cons x rest ih =>
    intro t res did hstop h hp
    unfold finalizePhase
    by_cases hx : (res x).status = .pending
    · rw [if_pos hx, if_pos (hstop t le_rfl)]
      rcases List.mem_cons.mp h with rfl | h2
      · rw [finalize_preserve env rest _ _ (by rw [setRes_self]; simp), setRes_self]
      · by_cases hxd : did = x
        · subst hxd
          rw [finalize_preserve env rest _ _ (by rw [setRes_self]; simp), setRes_self]
        · exact ih _ _ (fun s hs => hstop s (Nat.le_trans (Nat.le_succ t) hs)) h2
            (by rwa [setRes_other hxd])
    · rw [if_neg hx]
      rcases List.mem_cons.mp h with rfl | h2
      · exact absurd hp hx
      · exact ih _ _ hstop h2 hp

/-! Task polling lemmas. -/

/-- The first terminal (state, detail) the status oracle reports for a
task, scanning from attempt att with the given fuel and ignoring the stop
flag: the cancellation-free outcome of polling the task. -/
def firstTerminal (env : Env) (tid : String) : Nat → Nat → Option (String × String)
  | 0, _ => none
  | fuel + 1, att =>
    let p := env.taskStatus tid att
    if classifyTaskState p.1 = "pending" then firstTerminal env tid fuel (att + 1)
    else some (p.1, p.2)

theorem recordTaskResult_status (st d : String) :
    (recordTaskResult st d).status = .success ∨ (recordTaskResult st d).status = .failed := by
  unfold recordTaskResult
  split
  · left; rfl
  · right; rfl

theorem pollTask_tick {env : Env} {tid : String} :
    ∀ {fuel t att t2 : Nat} {st d : String},
      pollTask env tid fuel t att = some (t2, st, d) → t < t2 := by
  intro fuel
  induction fuel with
  | zero => intro t att t2 st d h; exact Option.noConfusion h
  | succ fuel ih =>
    intro t att t2 st d h
    unfold pollTask at h
    by_cases hs : env.stop t
    · rw [if_pos hs] at h
      simp only [Option.some.injEq, Prod.mk.injEq] at h
      omega
    · rw [if_neg hs] at h
      by_cases hcl : classifyTaskState (env.taskStatus tid att).1 = "pending"
      · rw [if_pos hcl] at h
        exact Nat.lt_of_succ_lt (ih h)
      · rw [if_neg hcl] at h
        simp only [Option.some.injEq, Prod.mk.injEq] at h
        omega

theorem pollTask_genuine {env : Env}
    (hmono : ∀ i j, i ≤ j → env.stop i = true → env.stop j = true) {tid : String} :
    ∀ {fuel t att t2 : Nat} {st d : String},
      pollTask env tid fuel t att = some (t2, st, d) →
      env.stop t2 = false →
      firstTerminal env tid fuel att = some (st, d) := by
  intro fuel
  induction fuel with
  | zero => intro t att t2 st d h _; exact Option.noConfusion h
  | succ fuel ih =>
    intro t att t2 st d h hns
    unfold pollTask at h
    by_cases hs : env.stop t
    · rw [if_pos hs] at h
      simp only [Option.some.injEq, Prod.mk.injEq] at h
      have ht2 : t ≤ t2 := by omega
      rw [hmono t t2 ht2 hs] at hns
      exact Bool.noConfusion hns
    · rw [if_neg hs] at h
      unfold firstTerminal
      by_cases hcl : classifyTaskState (env.taskStatus tid att).1 = "pending"
      · rw [if_pos hcl] at h ⊢
        exact ih h hns
      · rw [if_neg hcl] at h ⊢
        simp only [Option.some.injEq, Prod.mk.injEq] at h
        rw [h.2.1, h.2.2]

theorem pollPhase_spec {env : Env}
    (hmono : ∀ i j, i ≤ j → env.stop i = true → env.stop j = true) {pfuel : Nat} :
    ∀ (tasks : List (Nat × String)) (t : Nat) (res : Nat → DocResult) {t2 : Nat}
      {res2 : Nat → DocResult},
      pollPhase env pfuel tasks t res = some (t2, res2) →
      t ≤ t2 ∧
      (∀ q, q ∉ tasks.map Prod.fst → res2 q = res q) ∧
      ((tasks.map Prod.fst).Nodup →
        ∀ p ∈ tasks,
          (res2 p.1 = res p.1 ∧ ∃ ts, ts < t2 ∧ env.stop ts = true) ∨
          (∃ st d, firstTerminal env p.2 pfuel 0 = some (st, d) ∧
            res2 p.1 = recordTaskResult st d)) := by
  intro tasks
  induction tasks with
  | nil =>
    intro t res t2 res2 h
    simp only [pollPhase, Option.some.injEq, Prod.mk.injEq] at h
    obtain ⟨rfl, rfl⟩ := h
    exact ⟨le_rfl, fun q _ => rfl, fun _ p hp => absurd hp (List.not_mem_nil p)⟩
  | cons pr rest ih =>
    obtain ⟨did, tid⟩ := pr
    intro t res t2 res2 h
    unfold pollPhase at h
    by_cases hs : env.stop t
    · rw [if_pos hs] at h
      simp only [Option.some.injEq, Prod.mk.injEq] at h
      obtain ⟨rfl, rfl⟩ := h
      exact ⟨by omega, fun q _ => rfl,
        fun _ p _ => Or.inl ⟨rfl, t, by omega, hs⟩⟩
    · rw [if_neg hs] at h
      split at h
      next hp => exact Option.noConfusion h
      next tp st d hp =>
        by_cases hs2 : env.stop tp
        · rw [if_pos hs2] at h
          simp only [Option.some.injEq, Prod.mk.injEq] at h
          obtain ⟨rfl, rfl⟩ := h
          have htp := pollTask_tick hp
          exact ⟨by omega, fun q _ => rfl,
            fun _ p _ => Or.inl ⟨rfl, tp, by omega, hs2⟩⟩
        · rw [if_neg hs2] at h
          obtain ⟨h1, h2, h3⟩ := ih _ _ h
          have htp := pollTask_tick hp
          have hgen := pollTask_genuine hmono hp (by simpa using hs2)
          refine ⟨by omega, ?_, ?_⟩
          · intro q hq
            simp only [List.map_cons, List.mem_cons, not_or] at hq
            rw [h2 q hq.2, setRes_other hq.1]
          · intro hnd p hmem
            simp only [List.map_cons, List.nodup_cons] at hnd
            rcases List.mem_cons.mp hmem with rfl | hmem2
            · right
              refine ⟨st, d, hgen, ?_⟩
              rw [h2 did hnd.1, setRes_self]
            · have hne : p.1 ≠ did := by
                intro hh
                exact hnd.1 (hh ▸ List.mem_map_of_mem Prod.fst hmem2)
              rcases h3 hnd.2 p hmem2 with ⟨ha, ts, hts, hsts⟩ | hb
              · left
                rw [ha, setRes_other hne]
                exact ⟨rfl, ts, hts, hsts⟩
              · exact Or.inr hb

/-! Submission phase lemmas. -/

/-- The doc_results entry phase 1 records for an id it reaches. -/
def submitRecord (env : Env) (did : Nat) : DocResult :=
  match env.submit did with
  | .exc msg => ⟨.failed, "submit_error=" ++ msg⟩
  | .ok [] rv raw =>
    if pyUpper (pyStrip rv) = "OK" then ⟨.pending, "accepted_by_api_no_task_id"⟩
    else ⟨.failed, "no_task_id_payload=" ++ raw⟩
  | .ok (tid :: _) _ _ => ⟨.pending, "task_id=" ++ tid⟩

/-- The task id phase 1 tracks for an id, when the response has one. -/
def taskOf (env : Env) (did : Nat) : Option String :=
  match env.submit did with
  | .ok (tid :: _) _ _ => some tid
  | _ => none

/-- The bare-acceptance test of phase 1. -/
def bareOk (env : Env) (did : Nat) : Bool :=
  match env.submit did with
  | .ok [] rv _ => pyUpper (pyStrip rv) == "OK"
  | _ => false

theorem submitPhase_spec (env : Env) :
    ∀ (l : List Nat) (t : Nat) (res : Nat → DocResult) (tasks : List (Nat × String))
      (noTask : List Nat),
      t ≤ (submitPhase env l t res tasks noTask).1 ∧
      (∀ q, q ∉ l → (submitPhase env l t res tasks noTask).2.1 q = res q) ∧
      (∃ newT newN,
        (submitPhase env l t res tasks noTask).2.2.1 = tasks ++ newT ∧
        (submitPhase env l t res tasks noTask).2.2.2 = noTask ++ newN ∧
        List.Sublist (newT.map Prod.fst) l ∧ List.Sublist newN l ∧
        (∀ p ∈ newT, taskOf env p.1 = some p.2) ∧
        (∀ i ∈ newN, bareOk env i = true) ∧
        (l.Nodup → ∀ did ∈ l,
          ((submitPhase env l t res tasks noTask).2.1 did = res did ∧
            did ∉ newT.map Prod.fst ∧ did ∉ newN ∧
            ∃ ts, ts < (submitPhase env l t res tasks noTask).1 ∧
              env.stop ts = true) ∨
          ((submitPhase env l t res tasks noTask).2.1 did = submitRecord env did ∧
            (∀ tid, taskOf env did = some tid → (did, tid) ∈ newT) ∧
            (taskOf env did = none → did ∉ newT.map Prod.fst) ∧
            (bareOk env did = true → did ∈ newN) ∧
            (bareOk env did = false → did ∉ newN)))) := by
  intro l
  induction l with
  | nil =>
    intro t res tasks noTask
    exact ⟨le_rfl, fun q _ => rfl,
      [], [], by simp [submitPhase], by simp [submitPhase],
      List.nil_sublist _, List.nil_sublist _,
      fun p hp => absurd hp (List.not_mem_nil p),
      fun i hi => absurd hi (List.not_mem_nil i),
      fun _ did hd => absurd hd (List.not_mem_nil did)⟩
  | cons did0 rest ih =>
    intro t res tasks noTask
    by_cases hs : env.stop t
    · have hS : submitPhase env (did0 :: rest) t res tasks noTask
          = (t + 1, res, tasks, noTask) := by
        unfold submitPhase
        rw [if_pos hs]
      rw [hS]
      exact ⟨by omega, fun q _ => rfl,
        [], [], by simp, by simp, List.nil_sublist _, List.nil_sublist _,
        fun p hp => absurd hp (List.not_mem_nil p),
        fun i hi => absurd hi (List.not_mem_nil i),
        fun _ did _ => Or.inl ⟨rfl, List.not_mem_nil did, List.not_mem_nil did,
          t, by omega, hs⟩⟩
    · cases hsub : env.submit did0 with
      | exc msg =>
        have hS : submitPhase env (did0 :: rest) t res tasks noTask
            = submitPhase env rest (t + 1)
                (setRes res did0 ⟨.failed, "submit_error=" ++ msg⟩) tasks noTask := by
          simp only [submitPhase]
          rw [if_neg hs, hsub]
        rw [hS]
        obtain ⟨ih1, ih2, newT, newN, hTeq, hNeq, hTsub, hNsub, hTcl, hNcl, hper⟩ :=
          ih (t + 1) (setRes res did0 ⟨.failed, "submit_error=" ++ msg⟩) tasks noTask
        have hrec : submitRecord env did0 = ⟨.failed, "submit_error=" ++ msg⟩ := by
          simp [submitRecord, hsub]
        have htk : taskOf env did0 = none := by simp [taskOf, hsub]
        have hbo : bareOk env did0 = false := by simp [bareOk, hsub]
        refine ⟨by omega, ?_, newT, newN, hTeq, hNeq, hTsub.cons did0, hNsub.cons did0,
          hTcl, hNcl, ?_⟩
        · intro q hq
          simp only [List.mem_cons, not_or] at hq
          rw [ih2 q hq.2, setRes_other hq.1]
        · intro hnd did hd
          simp only [List.nodup_cons] at hnd
          rcases List.mem_cons.mp hd with rfl | hd2
          · right
            refine ⟨by rw [ih2 did hnd.1, setRes_self, hrec], ?_, ?_, ?_, ?_⟩
            · intro tid htid
              rw [htk] at htid
              exact Option.noConfusion htid
            · intro _ hmem
              exact hnd.1 (hTsub.subset hmem)
            · intro hb
              rw [hbo] at hb
              exact Bool.noConfusion hb
            · intro _ hmem
              exact hnd.1 (hNsub.subset hmem)
          · have hne : did ≠ did0 := fun hh => hnd.1 (hh ▸ hd2)
            rcases hper hnd.2 did hd2 with ⟨ha, h2, h3, ts, hts, hsts⟩ | hb
            · exact Or.inl ⟨by rw [ha, setRes_other hne], h2, h3, ts, hts, hsts⟩
            · exact Or.inr hb
      | ok taskIds rv raw =>
        cases taskIds with
        | nil =>
          by_cases hok : pyUpper (pyStrip rv) = "OK"
          · have hS : submitPhase env (did0 :: rest) t res tasks noTask
                = submitPhase env rest (t + 1)
                    (setRes res did0 ⟨.pending, "accepted_by_api_no_task_id"⟩)
                    tasks (noTask ++ [did0]) := by
              simp only [submitPhase]
              rw [if_neg hs, hsub]
              simp only [if_pos hok]
            rw [hS]
            obtain ⟨ih1, ih2, newT, newN, hTeq, hNeq, hTsub, hNsub, hTcl, hNcl, hper⟩ :=
              ih (t + 1) (setRes res did0 ⟨.pending, "accepted_by_api_no_task_id"⟩)
                tasks (noTask ++ [did0])
            have hrec : submitRecord env did0
                = ⟨.pending, "accepted_by_api_no_task_id"⟩ := by
              simp [submitRecord, hsub, hok]
            have htk : taskOf env did0 = none := by simp [taskOf, hsub]
            have hbo : bareOk env did0 = true := by simp [bareOk, hsub, hok]
            refine ⟨by omega, ?_, newT, did0 :: newN, hTeq,
              by rw [hNeq]; simp, hTsub.cons did0, List.cons_sublist_cons.mpr hNsub,
              hTcl, ?_, ?_⟩
            · intro q hq
              simp only [List.mem_cons, not_or] at hq
              rw [ih2 q hq.2, setRes_other hq.1]
            · intro i hi
              rcases List.mem_cons.mp hi with rfl | hi2
              · exact hbo
              · exact hNcl i hi2
            · intro hnd did hd
              simp only [List.nodup_cons] at hnd
              rcases List.mem_cons.mp hd with rfl | hd2
              · right
                refine ⟨by rw [ih2 did hnd.1, setRes_self, hrec], ?_, ?_, ?_, ?_⟩
                · intro tid htid
                  rw [htk] at htid
                  exact Option.noConfusion htid
                · intro _ hmem
                  exact hnd.1 (hTsub.subset hmem)
                · intro _
                  exact List.mem_cons_self did newN
                · intro hb
                  rw [hbo] at hb
                  exact Bool.noConfusion hb
              · have hne : did ≠ did0 := fun hh => hnd.1 (hh ▸ hd2)
                rcases hper hnd.2 did hd2 with ⟨ha, h2, h3, ts, hts, hsts⟩ |
                  ⟨ha, c1, c2, c3, c4⟩
                · refine Or.inl ⟨by rw [ha, setRes_other hne], h2, ?_, ts, hts, hsts⟩
                  intro hmem
                  rcases List.mem_cons.mp hmem with hh | hh
                  · exact hne hh
                  · exact h3 hh
                · refine Or.inr ⟨ha, c1, c2,
                    fun hb => List.mem_cons_of_mem _ (c3 hb), ?_⟩
                  intro hb hmem
                  rcases List.mem_cons.mp hmem with hh | hh
                  · exact hne hh
                  · exact c4 hb hh
          · have hS : submitPhase env (did0 :: rest) t res tasks noTask
                = submitPhase env rest (t + 1)
                    (setRes res did0 ⟨.failed, "no_task_id_payload=" ++ raw⟩)
                    tasks noTask := by
              simp only [submitPhase]
              rw [if_neg hs, hsub]
              simp only [if_neg hok]
            rw [hS]
            obtain ⟨ih1, ih2, newT, newN, hTeq, hNeq, hTsub, hNsub, hTcl, hNcl, hper⟩ :=
              ih (t + 1) (setRes res did0 ⟨.failed, "no_task_id_payload=" ++ raw⟩)
                tasks noTask
            have hrec : submitRecord env did0
                = ⟨.failed, "no_task_id_payload=" ++ raw⟩ := by
              simp [submitRecord, hsub, hok]
            have htk : taskOf env did0 = none := by simp [taskOf, hsub]
            have hbo : bareOk env did0 = false := by simp [bareOk, hsub, hok]
            refine ⟨by omega, ?_, newT, newN, hTeq, hNeq, hTsub.cons did0,
              hNsub.cons did0, hTcl, hNcl, ?_⟩
            · intro q hq
              simp only [List.mem_cons, not_or] at hq
              rw [ih2 q hq.2, setRes_other hq.1]
            · intro hnd did hd
              simp only [List.nodup_cons] at hnd
              rcases List.mem_cons.mp hd with rfl | hd2
              · right
                refine ⟨by rw [ih2 did hnd.1, setRes_self, hrec], ?_, ?_, ?_, ?_⟩
                · intro tid htid
                  rw [htk] at htid
                  exact Option.noConfusion htid
                · intro _ hmem
                  exact hnd.1 (hTsub.subset hmem)
                · intro hb
                  rw [hbo] at hb
                  exact Bool.noConfusion hb
                · intro _ hmem
                  exact hnd.1 (hNsub.subset hmem)
              · have hne : did ≠ did0 := fun hh => hnd.1 (hh ▸ hd2)
                rcases hper hnd.2 did hd2 with ⟨ha, h2, h3, ts, hts, hsts⟩ | hb
                · exact Or.inl ⟨by rw [ha, setRes_other hne], h2, h3, ts, hts, hsts⟩
                · exact Or.inr hb
        | cons tid tl =>
          have hS : submitPhase env (did0 :: rest) t res tasks noTask
              = submitPhase env rest (t + 1)
                  (setRes res did0 ⟨.pending, "task_id=" ++ tid⟩)
                  (tasks ++ [(did0, tid)]) noTask := by
            simp only [submitPhase]
            rw [if_neg hs, hsub]
          rw [hS]
          obtain ⟨ih1, ih2, newT, newN, hTeq, hNeq, hTsub, hNsub, hTcl, hNcl, hper⟩ :=
            ih (t + 1) (setRes res did0 ⟨.pending, "task_id=" ++ tid⟩)
              (tasks ++ [(did0, tid)]) noTask
          have hrec : submitRecord env did0 = ⟨.pending, "task_id=" ++ tid⟩ := by
            simp [submitRecord, hsub]
          have htk : taskOf env did0 = some tid := by simp [taskOf, hsub]
          have hbo : bareOk env did0 = false := by simp [bareOk, hsub]
          refine ⟨by omega, ?_, (did0, tid) :: newT, newN,
            by rw [hTeq]; simp, hNeq, ?_, hNsub.cons did0, ?_, hNcl, ?_⟩
          · intro q hq
            simp only [List.mem_cons, not_or] at hq
            rw [ih2 q hq.2, setRes_other hq.1]
          · simp only [List.map_cons]
            exact List.cons_sublist_cons.mpr hTsub
          · intro p hp
            rcases List.mem_cons.mp hp with rfl | hp2
            · exact htk
            · exact hTcl p hp2
          · intro hnd did hd
            simp only [List.nodup_cons] at hnd
            rcases List.mem_cons.mp hd with rfl | hd2
            · right
              refine ⟨by rw [ih2 did hnd.1, setRes_self, hrec], ?_, ?_, ?_, ?_⟩
              · intro tid2 htid2
                rw [htk] at htid2
                injection htid2 with hinj
                subst hinj
                exact List.mem_cons_self _ _
              · intro hno
                rw [htk] at hno
                exact Option.noConfusion hno
              · intro hb
                rw [hbo] at hb
                exact Bool.noConfusion hb
              · intro _ hmem
                exact hnd.1 (hNsub.subset hmem)
            · have hne : did ≠ did0 := fun hh => hnd.1 (hh ▸ hd2)
              rcases hper hnd.2 did hd2 with ⟨ha, h2, h3, ts, hts, hsts⟩ |
                ⟨ha, c1, c2, c3, c4⟩
              · refine Or.inl ⟨by rw [ha, setRes_other hne], ?_, h3, ts, hts, hsts⟩
                intro hmem
                simp only [List.map_cons, List.mem_cons] at hmem
                rcases hmem with hh | hh
                · exact hne hh
                · exact h2 hh
              · refine Or.inr ⟨ha,
                  fun tid2 htid2 => List.mem_cons_of_mem _ (c1 tid2 htid2), ?_, c3, c4⟩
                intro hno hmem
                simp only [List.map_cons, List.mem_cons] at hmem
                rcases hmem with hh | hh
                · exact hne hh
                · exact c2 hno hh

/-! Diff-observation phase lemmas. -/

theorem diffInner_tick (env : Env) (iter : Nat) :
    ∀ (pend : List (Nat × Snapshot)) (t : Nat), t ≤ (diffInner env iter pend t).1 := by
  intro pend
  induction pend with
  | nil => intro t; exact le_rfl
  | cons p0 rest ih =>
    obtain ⟨did, base⟩ := p0
    intro t
    have hrec := ih (t + 1)
    by_cases hs : env.stop t
    · simp only [diffInner, if_pos hs]; omega
    · cases hf : env.fetchSnap did iter with
      | none => simp only [diffInner, if_neg hs, hf]; omega
      | some after =>
        by_cases heq : after = base
        · simp only [diffInner, if_neg hs, hf, if_pos heq]; omega
        · simp only [diffInner, if_neg hs, hf, if_neg heq]; omega

theorem diffInner_sound (env : Env) (iter : Nat) :
    ∀ (pend : List (Nat × Snapshot)) (t : Nat),
      ∀ did ∈ (diffInner env iter pend t).2,
        ∃ base s, (did, base) ∈ pend ∧ env.fetchSnap did iter = some s ∧ s ≠ base := by
  intro pend
  induction pend with
  | nil => intro t did h; cases h
  | cons p0 rest ih =>
    obtain ⟨did0, base0⟩ := p0
    intro t did h
    by_cases hs : env.stop t
    · simp only [diffInner, if_pos hs] at h; cases h
    · cases hf : env.fetchSnap did0 iter with
      | none =>
        simp only [diffInner, if_neg hs, hf] at h
        obtain ⟨base, s, hmem, hfs, hne⟩ := ih (t + 1) did h
        exact ⟨base, s, List.mem_cons_of_mem _ hmem, hfs, hne⟩
      | some after =>
        by_cases heq : after = base0
        · simp only [diffInner, if_neg hs, hf, if_pos heq] at h
          obtain ⟨base, s, hmem, hfs, hne⟩ := ih (t + 1) did h
          exact ⟨base, s, List.mem_cons_of_mem _ hmem, hfs, hne⟩
        · simp only [diffInner, if_neg hs, hf, if_neg heq, List.mem_cons] at h
          rcases h with rfl | h2
          · exact ⟨base0, after, List.mem_cons_self _ _, hf, heq⟩
          · obtain ⟨base, s, hmem, hfs, hne⟩ := ih (t + 1) did h2
            exact ⟨base, s, List.mem_cons_of_mem _ hmem, hfs, hne⟩

theorem diffInner_complete (env : Env) (iter : Nat)
    (hstop : ∀ tt, env.stop tt = false) :
    ∀ (pend : List (Nat × Snapshot)) (t : Nat) {did : Nat} {base : Snapshot} {s : Snapshot},
      (did, base) ∈ pend → env.fetchSnap did iter = some s → s ≠ base →
      did ∈ (diffInner env iter pend t).2 := by
  intro pend
  induction pend with
  | nil => intro t did base s h; cases h
  | cons p0 rest ih =>
    obtain ⟨did0, base0⟩ := p0
    intro t did base s hmem hf hne
    rcases List.mem_cons.mp hmem with heq | h2
    · injection heq with h1 h2x
      subst h1
      subst h2x
      simp only [diffInner, hstop t, Bool.false_eq_true, if_false, hf, if_neg hne,
        List.mem_cons]
      exact Or.inl trivial
    · cases hf0 : env.fetchSnap did0 iter with
      | none =>
        simp only [diffInner, hstop t, Bool.false_eq_true, if_false, hf0]
        exact ih (t + 1) h2 hf hne
      | some after =>
        by_cases heq0 : after = base0
        · simp only [diffInner, hstop t, Bool.false_eq_true, if_false, hf0, if_pos heq0]
          exact ih (t + 1) h2 hf hne
        · simp only [diffInner, hstop t, Bool.false_eq_true, if_false, hf0, if_neg heq0,
            List.mem_cons]
          exact Or.inr (ih (t + 1) h2 hf hne)

theorem diffOuter_spec (env : Env) :
    ∀ (dfuel : Nat) (pend : List (Nat × Snapshot)) (t iter : Nat),
      t ≤ (diffOuter env dfuel pend t iter).1 ∧
      (∀ did ∈ (diffOuter env dfuel pend t iter).2.1,
        ∃ base k s, (did, base) ∈ pend ∧ env.fetchSnap did k = some s ∧ s ≠ base) ∧
      (∀ p ∈ pend, p.1 ∈ (diffOuter env dfuel pend t iter).2.1 ∨
        p ∈ (diffOuter env dfuel pend t iter).2.2) ∧
      (∀ p ∈ (diffOuter env dfuel pend t iter).2.2,
        p ∈ pend ∧ p.1 ∉ (diffOuter env dfuel pend t iter).2.1) := by
  intro dfuel
  induction dfuel with
  | zero =>
    intro pend t iter
    cases pend with
    | nil =>
      exact ⟨le_rfl, fun did h => absurd h (List.not_mem_nil did),
        fun p hp => absurd hp (List.not_mem_nil p),
        fun p hp => absurd hp (List.not_mem_nil p)⟩
    | cons p0 pendRest =>
      have hS : diffOuter env 0 (p0 :: pendRest) t iter
          = (t + 1, [], p0 :: pendRest) := by
        simp only [diffOuter]
        split <;> rfl
      rw [hS]
      exact ⟨by omega, fun did h => absurd h (List.not_mem_nil did),
        fun p hp => Or.inr hp, fun p hp => ⟨hp, List.not_mem_nil p.1⟩⟩
  | succ dfuel ih =>
    intro pend t iter
    cases pend with
    | nil =>
      exact ⟨le_rfl, fun did h => absurd h (List.not_mem_nil did),
        fun p hp => absurd hp (List.not_mem_nil p),
        fun p hp => absurd hp (List.not_mem_nil p)⟩
    | cons p0 pendRest =>
      by_cases hs : env.stop t
      · have hS : diffOuter env (dfuel + 1) (p0 :: pendRest) t iter
            = (t + 1, [], p0 :: pendRest) := by
          simp only [diffOuter]
          rw [if_pos hs]
        rw [hS]
        exact ⟨by omega, fun did h => absurd h (List.not_mem_nil did),
          fun p hp => Or.inr hp, fun p hp => ⟨hp, List.not_mem_nil p.1⟩⟩
      · cases hp2 : (p0 :: pendRest).filter
            (fun p => !((diffInner env iter (p0 :: pendRest) (t + 1)).2.contains p.1)) with
        | nil =>
          have hS : diffOuter env (dfuel + 1) (p0 :: pendRest) t iter
              = ((diffInner env iter (p0 :: pendRest) (t + 1)).1,
                 (diffInner env iter (p0 :: pendRest) (t + 1)).2, []) := by
            simp only [diffOuter]
            rw [if_neg hs, hp2]
          rw [hS]
          refine ⟨?_, ?_, ?_, ?_⟩
          · have := diffInner_tick env iter (p0 :: pendRest) (t + 1)
            omega
          · intro did h
            obtain ⟨base, s, hmem, hf, hne⟩ := diffInner_sound env iter _ (t + 1) did h
            exact ⟨base, iter, s, hmem, hf, hne⟩
          · intro p hp
            left
            by_cases hin : p.1 ∈ (diffInner env iter (p0 :: pendRest) (t + 1)).2
            · exact hin
            · exfalso
              have : p ∈ (p0 :: pendRest).filter
                  (fun p => !((diffInner env iter (p0 :: pendRest) (t + 1)).2.contains p.1)) := by
                rw [List.mem_filter]
                refine ⟨hp, ?_⟩
                simp [List.contains, hin]
              rw [hp2] at this
              cases this
          · intro p hp
            cases hp
        | cons q qs =>
          have hS : diffOuter env (dfuel + 1) (p0 :: pendRest) t iter
              = ((diffOuter env dfuel (q :: qs)
                    ((diffInner env iter (p0 :: pendRest) (t + 1)).1 + 1) (iter + 1)).1,
                 (diffInner env iter (p0 :: pendRest) (t + 1)).2
                   ++ (diffOuter env dfuel (q :: qs)
                    ((diffInner env iter (p0 :: pendRest) (t + 1)).1 + 1) (iter + 1)).2.1,
                 (diffOuter env dfuel (q :: qs)
                    ((diffInner env iter (p0 :: pendRest) (t + 1)).1 + 1) (iter + 1)).2.2) := by
            simp only [diffOuter]
            rw [if_neg hs, hp2]
          rw [hS]
          obtain ⟨ih1, ih2, ih3, ih4⟩ := ih (q :: qs)
            ((diffInner env iter (p0 :: pendRest) (t + 1)).1 + 1) (iter + 1)
          have htick := diffInner_tick env iter (p0 :: pendRest) (t + 1)
          have hsubpend : ∀ p, p ∈ (q :: qs) → p ∈ (p0 :: pendRest) := by
            intro p hp
            have : p ∈ (p0 :: pendRest).filter
                (fun p => !((diffInner env iter (p0 :: pendRest) (t + 1)).2.contains p.1)) := by
              rw [hp2]; exact hp
            exact (List.mem_filter.mp this).1
          have hnotobs : ∀ p, p ∈ (q :: qs) →
              p.1 ∉ (diffInner env iter (p0 :: pendRest) (t + 1)).2 := by
            intro p hp
            have : p ∈ (p0 :: pendRest).filter
                (fun p => !((diffInner env iter (p0 :: pendRest) (t + 1)).2.contains p.1)) := by
              rw [hp2]; exact hp
            have := (List.mem_filter.mp this).2
            intro hmem
            simp only [Bool.not_eq_true'] at this
            rw [List.contains_eq_any_beq] at this
            have h2 := List.any_eq_true.mpr ⟨p.1, hmem, beq_self_eq_true p.1⟩
            rw [h2] at this
            exact Bool.noConfusion this
          refine ⟨by omega, ?_, ?_, ?_⟩
          · intro did h
            rcases List.mem_append.mp h with h | h
            · obtain ⟨base, s, hmem, hf, hne⟩ := diffInner_sound env iter _ (t + 1) did h
              exact ⟨base, iter, s, hmem, hf, hne⟩
            · obtain ⟨base, k, s, hmem, hf, hne⟩ := ih2 did h
              exact ⟨base, k, s, hsubpend _ hmem, hf, hne⟩
          · intro p hp
            by_cases hin : p.1 ∈ (diffInner env iter (p0 :: pendRest) (t + 1)).2
            · exact Or.inl (List.mem_append.mpr (Or.inl hin))
            · have hmem2 : p ∈ (q :: qs) := by
                rw [← hp2, List.mem_filter]
                refine ⟨hp, ?_⟩
                simp [List.contains, hin]
              rcases ih3 p hmem2 with h | h
              · exact Or.inl (List.mem_append.mpr (Or.inr h))
              · exact Or.inr h
          · intro p hp
            obtain ⟨hmem, hno⟩ := ih4 p hp
            refine ⟨hsubpend _ hmem, ?_⟩
            intro hmem2
            rcases List.mem_append.mp hmem2 with h | h
            · exact hnotobs _ hmem h
            · exact hno h

theorem diffOuter_first_obs (env : Env) (hstop : ∀ tt, env.stop tt = false)
    (dfuel : Nat) (B : List (Nat × Snapshot)) (t iter : Nat) {did : Nat}
    {base s : Snapshot} (hmem : (did, base) ∈ B)
    (hf : env.fetchSnap did iter = some s) (hne : s ≠ base) :
    did ∈ (diffOuter env (dfuel + 1) B t iter).2.1 := by
  cases B with
  | nil => cases hmem
  | cons p0 pendRest =>
    have hin : did ∈ (diffInner env iter (p0 :: pendRest) (t + 1)).2 :=
      diffInner_complete env iter hstop (p0 :: pendRest) (t + 1) hmem hf hne
    cases hp2 : (p0 :: pendRest).filter
        (fun p => !((diffInner env iter (p0 :: pendRest) (t + 1)).2.contains p.1)) with
    | nil =>
      have hS : diffOuter env (dfuel + 1) (p0 :: pendRest) t iter
          = ((diffInner env iter (p0 :: pendRest) (t + 1)).1,
             (diffInner env iter (p0 :: pendRest) (t + 1)).2, []) := by
        simp only [diffOuter]
        rw [if_neg (by simp [hstop t]), hp2]
      rw [hS]
      exact hin
    | cons q qs =>
      have hS : diffOuter env (dfuel + 1) (p0 :: pendRest) t iter
          = ((diffOuter env dfuel (q :: qs)
                ((diffInner env iter (p0 :: pendRest) (t + 1)).1 + 1) (iter + 1)).1,
             (diffInner env iter (p0 :: pendRest) (t + 1)).2
               ++ (diffOuter env dfuel (q :: qs)
                ((diffInner env iter (p0 :: pendRest) (t + 1)).1 + 1) (iter + 1)).2.1,
             (diffOuter env dfuel (q :: qs)
                ((diffInner env iter (p0 :: pendRest) (t + 1)).1 + 1) (iter + 1)).2.2) := by
        simp only [diffOuter]
        rw [if_neg (by simp [hstop t]), hp2]
      rw [hS]
      exact List.mem_append.mpr (Or.inl hin)

/-! pollNoTaskDiffs corollaries. -/

theorem pollNoTaskDiffs_obs_sound (env : Env) (dfuel : Nat)
    (B : List (Nat × Snapshot)) (t : Nat) :
    ∀ did ∈ (pollNoTaskDiffs env dfuel B t).2.1,
      ∃ base k s, (did, base) ∈ B ∧ env.fetchSnap did k = some s ∧ s ≠ base := by
  intro did h
  have hsp := (diffOuter_spec env dfuel B t 0).2.1
  unfold pollNoTaskDiffs at h
  by_cases hs : env.stop (diffOuter env dfuel B t 0).1
  · rw [if_pos hs] at h
    exact hsp did h
  · rw [if_neg hs] at h
    exact hsp did h

theorem pollNoTaskDiffs_partition (env : Env) (dfuel : Nat)
    (B : List (Nat × Snapshot)) (t : Nat) :
    ∀ p ∈ B, p.1 ∈ (pollNoTaskDiffs env dfuel B t).2.1 ∨
      p.1 ∈ (pollNoTaskDiffs env dfuel B t).2.2.1 ∨
      p.1 ∈ (pollNoTaskDiffs env dfuel B t).2.2.2 := by
  intro p hp
  have hsp := (diffOuter_spec env dfuel B t 0).2.2.1 p hp
  unfold pollNoTaskDiffs
  by_cases hs : env.stop (diffOuter env dfuel B t 0).1
  · rw [if_pos hs]
    rcases hsp with h | h
    · exact Or.inl h
    · exact Or.inr (Or.inr (List.mem_map_of_mem (fun q => q.1) h))
  · rw [if_neg hs]
    rcases hsp with h | h
    · exact Or.inl h
    · exact Or.inr (Or.inl (List.mem_map_of_mem (fun q => q.1) h))

theorem pollNoTaskDiffs_noDiff_not_obs (env : Env) (dfuel : Nat)
    (B : List (Nat × Snapshot)) (t : Nat) :
    ∀ did ∈ (pollNoTaskDiffs env dfuel B t).2.2.1,
      did ∉ (pollNoTaskDiffs env dfuel B t).2.1 := by
  intro did h
  have hsp := (diffOuter_spec env dfuel B t 0).2.2.2
  unfold pollNoTaskDiffs at h ⊢
  by_cases hs : env.stop (diffOuter env dfuel B t 0).1
  · rw [if_pos hs] at h
    cases h
  · rw [if_neg hs] at h ⊢
    obtain ⟨p, hpmem, rfl⟩ := List.mem_map.mp h
    exact (hsp p hpmem).2

theorem pollNoTaskDiffs_stopped_not_obs (env : Env) (dfuel : Nat)
    (B : List (Nat × Snapshot)) (t : Nat) :
    ∀ did ∈ (pollNoTaskDiffs env dfuel B t).2.2.2,
      did ∉ (pollNoTaskDiffs env dfuel B t).2.1 := by
  intro did h
  have hsp := (diffOuter_spec env dfuel B t 0).2.2.2
  unfold pollNoTaskDiffs at h ⊢
  by_cases hs : env.stop (diffOuter env dfuel B t 0).1
  · rw [if_pos hs] at h ⊢
    obtain ⟨p, hpmem, rfl⟩ := List.mem_map.mp h
    exact (hsp p hpmem).2
  · rw [if_neg hs] at h
    cases h

theorem pollNoTaskDiffs_stopped_stop (env : Env) (dfuel : Nat)
    (B : List (Nat × Snapshot)) (t : Nat) :
    (pollNoTaskDiffs env dfuel B t).2.2.2 ≠ [] → ∃ ts, env.stop ts = true := by
  intro h
  unfold pollNoTaskDiffs at h
  by_cases hs : env.stop (diffOuter env dfuel B t 0).1
  · exact ⟨(diffOuter env dfuel B t 0).1, hs⟩
  · rw [if_neg hs] at h
    exact absurd rfl h

theorem pollNoTaskDiffs_nostop_stopped_nil (env : Env)
    (hstop : ∀ tt, env.stop tt = false) (dfuel : Nat)
    (B : List (Nat × Snapshot)) (t : Nat) :
    (pollNoTaskDiffs env dfuel B t).2.2.2 = [] := by
  unfold pollNoTaskDiffs
  rw [if_neg (by simp [hstop])]

theorem pollNoTaskDiffs_first_obs (env : Env) (hstop : ∀ tt, env.stop tt = false)
    (dfuel : Nat) (B : List (Nat × Snapshot)) (t : Nat) {did : Nat}
    {base s : Snapshot} (hmem : (did, base) ∈ B)
    (hf : env.fetchSnap did 0 = some s) (hne : s ≠ base) :
    did ∈ (pollNoTaskDiffs env (dfuel + 1) B t).2.1 := by
  unfold pollNoTaskDiffs
  rw [if_neg (by simp [hstop])]
  exact diffOuter_first_obs env hstop dfuel B t 0 hmem hf hne

theorem pollNoTaskDiffs_tick (env : Env) (dfuel : Nat)
    (B : List (Nat × Snapshot)) (t : Nat) :
    t ≤ (pollNoTaskDiffs env dfuel B t).1 := by
  have := (diffOuter_spec env dfuel B t 0).1
  unfold pollNoTaskDiffs
  by_cases hs : env.stop (diffOuter env dfuel B t 0).1
  · rw [if_pos hs]; omega
  · rw [if_neg hs]; omega

theorem pollNoTaskDiffs_noDiff_sub (env : Env) (dfuel : Nat)
    (B : List (Nat × Snapshot)) (t : Nat) :
    ∀ did ∈ (pollNoTaskDiffs env dfuel B t).2.2.1, ∃ base, (did, base) ∈ B := by
  intro did h
  have hsp := (diffOuter_spec env dfuel B t 0).2.2.2
  unfold pollNoTaskDiffs at h
  by_cases hs : env.stop (diffOuter env dfuel B t 0).1
  · rw [if_pos hs] at h
    cases h
  · rw [if_neg hs] at h
    obtain ⟨p, hpmem, rfl⟩ := List.mem_map.mp h
    exact ⟨p.2, (hsp p hpmem).1⟩

theorem pollNoTaskDiffs_stopped_sub (env : Env) (dfuel : Nat)
    (B : List (Nat × Snapshot)) (t : Nat) :
    ∀ did ∈ (pollNoTaskDiffs env dfuel B t).2.2.2, ∃ base, (did, base) ∈ B := by
  intro did h
  have hsp := (diffOuter_spec env dfuel B t 0).2.2.2
  unfold pollNoTaskDiffs at h
  by_cases hs : env.stop (diffOuter env dfuel B t 0).1
  · rw [if_pos hs] at h
    obtain ⟨p, hpmem, rfl⟩ := List.mem_map.mp h
    exact ⟨p.2, (hsp p hpmem).1⟩
  · rw [if_neg hs] at h
    cases h

theorem pollNoTaskDiffs_disjoint (env : Env) (dfuel : Nat)
    (B : List (Nat × Snapshot)) (t : Nat) :
    (pollNoTaskDiffs env dfuel B t).2.2.1 = [] ∨
    (pollNoTaskDiffs env dfuel B t).2.2.2 = [] := by
  unfold pollNoTaskDiffs
  by_cases hs : env.stop (diffOuter env dfuel B t 0).1
  · rw [if_pos hs]
    exact Or.inl rfl
  · rw [if_neg hs]
    exact Or.inr rfl

/-! Diff write-back lemmas. -/

theorem applyDiffResults_skip {res : Nat → DocResult} {obs noDiff stopped : List Nat}
    {did : Nat} (h1 : did ∉ obs) (h2 : did ∉ noDiff) (h3 : did ∉ stopped) :
    applyDiffResults res obs noDiff stopped did = res did := by
  unfold applyDiffResults
  rw [foldl_setRes_skip stopped _ h3, foldl_setRes_skip noDiff _ h2,
    foldl_setRes_skip obs _ h1]

theorem applyDiffResults_obs {res : Nat → DocResult} {obs noDiff stopped : List Nat}
    {did : Nat} (h1 : did ∈ obs) (h2 : did ∉ noDiff) (h3 : did ∉ stopped) :
    applyDiffResults res obs noDiff stopped did
      = ⟨.success, "observed_change_via_diff"⟩ := by
  unfold applyDiffResults
  rw [foldl_setRes_skip stopped _ h3, foldl_setRes_skip noDiff _ h2,
    foldl_setRes_mem obs _ h1]

theorem applyDiffResults_noDiff {res : Nat → DocResult} {obs noDiff stopped : List Nat}
    {did : Nat} (h2 : did ∈ noDiff) (h3 : did ∉ stopped) :
    applyDiffResults res obs noDiff stopped did
      = ⟨.success, "accepted_no_observed_diff"⟩ := by
  unfold applyDiffResults
  rw [foldl_setRes_skip stopped _ h3, foldl_setRes_mem noDiff _ h2]

theorem applyDiffResults_stopped {res : Nat → DocResult} {obs noDiff stopped : List Nat}
    {did : Nat} (h3 : did ∈ stopped) :
    applyDiffResults res obs noDiff stopped did
      = ⟨.failed, "stopped_before_diff_observation"⟩ := by
  unfold applyDiffResults
  rw [foldl_setRes_mem stopped _ h3]

theorem mkRow_id (env : Env) (runTs : String) (res : Nat → DocResult) (did : Nat) :
    (mkRow env runTs res did).id = did := by
  unfold mkRow
  cases hpf : env.postFetch did with
  | ok p =>
    obtain ⟨ttl, plen⟩ := p
    rfl
  | error e => rfl

theorem mkRow_status (env : Env) (runTs : String) (res : Nat → DocResult) (did : Nat) :
    (mkRow env runTs res did).status
      = (if (res did).status = .success then "success" else "failed") := by
  unfold mkRow
  cases hpf : env.postFetch did with
  | ok p =>
    obtain ⟨ttl, plen⟩ := p
    rfl
  | error e => rfl

/-! Worker outcome classification. -/

/-- The exact fate of a bare-OK id inside the diff-observation phase run on
the no-task list nt from tick t0: observed, no-diff, or stopped, each with
its recorded result. -/
def diffFate (env : Env) (dfuel : Nat) (nt : List Nat) (t0 : Nat) (did : Nat)
    (r : DocResult) : Prop :=
  (did ∈ (pollNoTaskDiffs env dfuel (nt.map (fun d => (d, env.baseline d))) t0).2.1 ∧
    r = ⟨.success, "observed_change_via_diff"⟩) ∨
  (did ∈ (pollNoTaskDiffs env dfuel (nt.map (fun d => (d, env.baseline d))) t0).2.2.1 ∧
    r = ⟨.success, "accepted_no_observed_diff"⟩) ∨
  (did ∈ (pollNoTaskDiffs env dfuel (nt.map (fun d => (d, env.baseline d))) t0).2.2.2 ∧
    r = ⟨.failed, "stopped_before_diff_observation"⟩)

/-- The outcome of an id that phase 1 reached (submitted), by submission
response: for a task id either its terminal state was recorded or polling
was cut short by the stop flag and finalization recorded the stop; for a
bare OK acceptance the diff phase decided the id's fate. -/
def reachedOutcome (env : Env) (pfuel dfuel : Nat) (did : Nat) (r : DocResult) : Prop :=
  match env.submit did with
  | .exc msg => r = ⟨.failed, "submit_error=" ++ msg⟩
  | .ok [] rv raw =>
    if pyUpper (pyStrip rv) = "OK" then
      ∃ nt t0, did ∈ nt ∧ diffFate env dfuel nt t0 did r
    else r = ⟨.failed, "no_task_id_payload=" ++ raw⟩
  | .ok (tid :: _) _ _ =>
    (∃ st d, firstTerminal env tid pfuel 0 = some (st, d) ∧ r = recordTaskResult st d) ∨
    (r = ⟨.failed, "stopped_before_completion"⟩ ∧ ∃ ts, env.stop ts = true)

/-- Master dissection of a completed worker run: the history rows are one
mkRow per batch id over the final results, no batch id stays pending, and
every batch id was either never submitted because the stop flag was already
set, or reached phase 1 and got the outcome its submission response
dictates. -/
theorem runWorker_spec (env : Env)
    (hmono : ∀ i j, i ≤ j → env.stop i = true → env.stop j = true)
    (pfuel dfuel : Nat) (runTs : String) (docIds : List Nat) (hnd : docIds.Nodup)
    {res : Nat → DocResult} {rows : List HRow}
    (h : runWorker env pfuel dfuel runTs docIds = some (res, rows)) :
    rows = docIds.map (mkRow env runTs res) ∧
    (∀ did ∈ docIds, (res did).status ≠ .pending) ∧
    (∀ did ∈ docIds,
      (res did = ⟨.failed, "stopped_before_completion"⟩ ∧ ∃ ts, env.stop ts = true) ∨
      reachedOutcome env pfuel dfuel did (res did)) := by
  simp only [runWorker] at h
  obtain ⟨hst1, hsu, newT, newN, hTeq, hNeq, hTsub, hNsub, hTcl, hNcl, hper⟩ :=
    submitPhase_spec env docIds 0 (fun _ => ⟨.pending, "not_submitted"⟩) [] []
  simp only [List.nil_append] at hTeq hNeq
  split at h
  next hpoll => exact Option.noConfusion h
  next t2 res2 hpoll =>
    rw [hTeq] at hpoll
    obtain ⟨hpt, hpu, hpdi⟩ := pollPhase_spec hmono newT _ _ hpoll
    have hTnd : (newT.map Prod.fst).Nodup := List.Nodup.sublist hTsub hnd
    simp only [Option.some.injEq, Prod.mk.injEq] at h
    obtain ⟨hres, hrows⟩ := h
    have hM : ∃ T R, (∀ q, res q = (finalizePhase env docIds T R).2 q) ∧ t2 ≤ T ∧
        ((newN = [] ∧ R = res2) ∨
         (newN ≠ [] ∧
           R = applyDiffResults res2
             (pollNoTaskDiffs env dfuel (newN.map fun d => (d, env.baseline d)) t2).2.1
             (pollNoTaskDiffs env dfuel (newN.map fun d => (d, env.baseline d)) t2).2.2.1
             (pollNoTaskDiffs env dfuel (newN.map fun d => (d, env.baseline d)) t2).2.2.2 ∧
           T = (pollNoTaskDiffs env dfuel (newN.map fun d => (d, env.baseline d)) t2).1)) := by
      rcases newN with _ | ⟨n0, nrest⟩
      · rw [hNeq] at hres
        exact ⟨t2, res2, fun q => by rw [← hres], le_rfl, Or.inl ⟨rfl, rfl⟩⟩
      · rw [hNeq] at hres
        refine ⟨_, _, fun q => by rw [← hres], ?_, Or.inr ⟨List.cons_ne_nil n0 nrest, rfl, rfl⟩⟩
        exact pollNoTaskDiffs_tick env dfuel _ t2
    obtain ⟨T, R, hresF, hTt2, hMcase⟩ := hM
    have hRskip : ∀ q, q ∉ newN → R q = res2 q := by
      intro q hq
      rcases hMcase with ⟨_, rfl⟩ | ⟨_, hR, _⟩
      · rfl
      · rw [hR]
        apply applyDiffResults_skip
        · intro hmem
          obtain ⟨base, k, s, hb, _, _⟩ :=
            pollNoTaskDiffs_obs_sound env dfuel _ t2 q hmem
          obtain ⟨d, hdN, hdq⟩ := List.mem_map.mp hb
          injection hdq with h1 h2
          exact hq (h1 ▸ hdN)
        · intro hmem
          obtain ⟨base, hb⟩ := pollNoTaskDiffs_noDiff_sub env dfuel _ t2 q hmem
          obtain ⟨d, hdN, hdq⟩ := List.mem_map.mp hb
          injection hdq with h1 h2
          exact hq (h1 ▸ hdN)
        · intro hmem
          obtain ⟨base, hb⟩ := pollNoTaskDiffs_stopped_sub env dfuel _ t2 q hmem
          obtain ⟨d, hdN, hdq⟩ := List.mem_map.mp hb
          injection hdq with h1 h2
          exact hq (h1 ▸ hdN)
    refine ⟨?_, ?_, ?_⟩
    · rw [← hrows, ← hres]
    · intro did hd
      rw [hresF did]
      exact finalize_total env docIds T R hd
    · intro did hd
      rcases hper hnd did hd with ⟨hinit, hnT, hnN, ts, hts, hsts⟩ | ⟨hrec, c1, c2, c3, c4⟩
      · left
        have hpend : R did = ⟨.pending, "not_submitted"⟩ := by
          rw [hRskip did hnN, hpu did hnT, hinit]
        have hstopT : ∀ s', T ≤ s' → env.stop s' = true := by
          intro s' hs'
          exact hmono ts s' (by omega) hsts
        refine ⟨?_, ts, hsts⟩
        rw [hresF did]
        exact finalize_stopped env docIds T R hstopT hd (by rw [hpend])
      · right
        cases hsub : env.submit did with
        | exc msg =>
          have hrecv : submitRecord env did = ⟨.failed, "submit_error=" ++ msg⟩ := by
            simp [submitRecord, hsub]
          have htk : taskOf env did = none := by simp [taskOf, hsub]
          have hbo : bareOk env did = false := by simp [bareOk, hsub]
          have hval : R did = ⟨.failed, "submit_error=" ++ msg⟩ := by
            rw [hRskip did (c4 hbo), hpu did (c2 htk), hrec, hrecv]
          simp only [reachedOutcome, hsub]
          rw [hresF did,
            finalize_preserve env docIds T R (by rw [hval]; intro hc; cases hc), hval]
        | ok taskIds rv raw =>
          cases taskIds with
          | nil =>
            by_cases hok : pyUpper (pyStrip rv) = "OK"
            · have hbo : bareOk env did = true := by simp [bareOk, hsub, hok]
              have htk : taskOf env did = none := by simp [taskOf, hsub]
              have hrecv : submitRecord env did
                  = ⟨.pending, "accepted_by_api_no_task_id"⟩ := by
                simp [submitRecord, hsub, hok]
              have hdN : did ∈ newN := c3 hbo
              rcases hMcase with ⟨hnil, _⟩ | ⟨hne, hR, hT⟩
              · rw [hnil] at hdN
                cases hdN
              · simp only [reachedOutcome, hsub, if_pos hok]
                refine ⟨newN, t2, hdN, ?_⟩
                have hpart := pollNoTaskDiffs_partition env dfuel
                  (newN.map fun d => (d, env.baseline d)) t2
                  (did, env.baseline did)
                  (List.mem_map_of_mem (fun d => (d, env.baseline d)) hdN)
                rcases hpart with hobs | hnd2 | hstp
                · have hnonD : did ∉ (pollNoTaskDiffs env dfuel
                      (newN.map fun d => (d, env.baseline d)) t2).2.2.1 := by
                    intro hmem
                    exact pollNoTaskDiffs_noDiff_not_obs env dfuel _ t2 did hmem hobs
                  have hnonS : did ∉ (pollNoTaskDiffs env dfuel
                      (newN.map fun d => (d, env.baseline d)) t2).2.2.2 := by
                    intro hmem
                    exact pollNoTaskDiffs_stopped_not_obs env dfuel _ t2 did hmem hobs
                  have hval : R did = ⟨.success, "observed_change_via_diff"⟩ := by
                    rw [hR]
                    exact applyDiffResults_obs hobs hnonD hnonS
                  left
                  refine ⟨hobs, ?_⟩
                  rw [hresF did,
                    finalize_preserve env docIds T R (by rw [hval]; intro hc; cases hc),
                    hval]
                · have hnonS : did ∉ (pollNoTaskDiffs env dfuel
                      (newN.map fun d => (d, env.baseline d)) t2).2.2.2 := by
                    rcases pollNoTaskDiffs_disjoint env dfuel
                      (newN.map fun d => (d, env.baseline d)) t2 with hc | hc
                    · rw [hc] at hnd2
                      cases hnd2
                    · rw [hc]
                      exact List.not_mem_nil did
                  have hval : R did = ⟨.success, "accepted_no_observed_diff"⟩ := by
                    rw [hR]
                    exact applyDiffResults_noDiff hnd2 hnonS
                  right
                  left
                  refine ⟨hnd2, ?_⟩
                  rw [hresF did,
                    finalize_preserve env docIds T R (by rw [hval]; intro hc; cases hc),
                    hval]
                · have hval : R did = ⟨.failed, "stopped_before_diff_observation"⟩ := by
                    rw [hR]
                    exact applyDiffResults_stopped hstp
                  right
                  right
                  refine ⟨hstp, ?_⟩
                  rw [hresF did,
                    finalize_preserve env docIds T R (by rw [hval]; intro hc; cases hc),
                    hval]
            · have hbo : bareOk env did = false := by
                simp [bareOk, hsub]
                intro hc
                exact absurd hc hok
              have htk : taskOf env did = none := by simp [taskOf, hsub]
              have hrecv : submitRecord env did
                  = ⟨.failed, "no_task_id_payload=" ++ raw⟩ := by
                simp [submitRecord, hsub, hok]
              have hval : R did = ⟨.failed, "no_task_id_payload=" ++ raw⟩ := by
                rw [hRskip did (c4 hbo), hpu did (c2 htk), hrec, hrecv]
              simp only [reachedOutcome, hsub, if_neg hok]
              rw [hresF did,
                finalize_preserve env docIds T R (by rw [hval]; intro hc; cases hc), hval]
          | cons tid tl =>
            have htk : taskOf env did = some tid := by simp [taskOf, hsub]
            have hbo : bareOk env did = false := by simp [bareOk, hsub]
            have hrecv : submitRecord env did = ⟨.pending, "task_id=" ++ tid⟩ := by
              simp [submitRecord, hsub]
            have hmemT : (did, tid) ∈ newT := c1 tid htk
            simp only [reachedOutcome, hsub]
            rcases hpdi hTnd (did, tid) hmemT with ⟨hunch, ts, hts2, hsts⟩ |
              ⟨st, d, hft, hrec2⟩
            · right
              have hpend : R did = ⟨.pending, "task_id=" ++ tid⟩ := by
                rw [hRskip did (c4 hbo), hunch, hrec, hrecv]
              have hstopT : ∀ s', T ≤ s' → env.stop s' = true := by
                intro s' hs'
                exact hmono ts s' (by omega) hsts
              refine ⟨?_, ts, hsts⟩
              rw [hresF did]
              exact finalize_stopped env docIds T R hstopT hd (by rw [hpend])
            · left
              refine ⟨st, d, hft, ?_⟩
              have hval : R did = recordTaskResult st d := by
                rw [hRskip did (c4 hbo), hrec2]
              have hnp : (R did).status ≠ .pending := by
                rw [hval]
                rcases recordTaskResult_status st d with hc | hc <;> rw [hc] <;>
                  intro hcc <;> cases hcc
              rw [hresF did, finalize_preserve env docIds T R hnp, hval]

theorem taskOf_some_submitRecord {env : Env} {d : Nat} {tid : String}
    (h : taskOf env d = some tid) :
    submitRecord env d = ⟨.pending, "task_id=" ++ tid⟩ ∧ bareOk env d = false := by
  cases hs : env.submit d with
  | exc msg =>
    rw [show taskOf env d = none by simp [taskOf, hs]] at h
    exact Option.noConfusion h
  | ok tids rv raw =>
    cases tids with
    | nil =>
      rw [show taskOf env d = none by simp [taskOf, hs]] at h
      exact Option.noConfusion h
    | cons t0 tl =>
      rw [show taskOf env d = some t0 by simp [taskOf, hs]] at h
      injection h with h1
      subst h1
      exact ⟨by simp [submitRecord, hs], by simp [bareOk, hs]⟩

theorem submitRecord_noTask_failed {env : Env} {d : Nat}
    (ht : taskOf env d = none) (hb : bareOk env d = false) :
    (submitRecord env d).status = .failed := by
  cases hs : env.submit d with
  | exc msg => simp [submitRecord, hs]
  | ok tids rv raw =>
    cases tids with
    | nil =>
      have hbo : pyUpper (pyStrip rv) ≠ "OK" := by
        intro hc
        have hbt : bareOk env d = true := by simp [bareOk, hs, hc]
        rw [hbt] at hb
        exact Bool.noConfusion hb
      simp [submitRecord, hs, hbo]
    | cons t0 tl =>
      rw [show taskOf env d = some t0 by simp [taskOf, hs]] at ht
      exact Option.noConfusion ht

theorem bareOk_true_elim {env : Env} {d : Nat} (hb : bareOk env d = true) :
    ∃ rv raw, env.submit d = .ok [] rv raw ∧ pyUpper (pyStrip rv) = "OK" := by
  cases hs : env.submit d with
  | exc msg =>
    rw [show bareOk env d = false by simp [bareOk, hs]] at hb
    exact Bool.noConfusion hb
  | ok tids rv raw =>
    cases tids with
    | nil =>
      refine ⟨rv, raw, rfl, ?_⟩
      have hb2 : (pyUpper (pyStrip rv) == "OK") = true := by
        rw [show bareOk env d = (pyUpper (pyStrip rv) == "OK") by simp [bareOk, hs]] at hb
        exact hb
      exact eq_of_beq hb2
    | cons t0 tl =>
      rw [show bareOk env d = false by simp [bareOk, hs]] at hb
      exact Bool.noConfusion hb

/-- Phase 2 records a prefix of the task list (the tasks whose terminal
state arrived while the stop flag was still clear, each keeping exactly
that terminal result) and leaves the remaining suffix untouched; a
nonempty suffix certifies that the stop flag was observed set. -/
theorem pollPhase_split {env : Env}
    (hmono : ∀ i j, i ≤ j → env.stop i = true → env.stop j = true) {pfuel : Nat} :
    ∀ (tasks : List (Nat × String)) (t : Nat) (res : Nat → DocResult) {t2 : Nat}
      {res2 : Nat → DocResult},
      pollPhase env pfuel tasks t res = some (t2, res2) →
      (tasks.map Prod.fst).Nodup →
      (∀ q, q ∉ tasks.map Prod.fst → res2 q = res q) ∧
      ∃ P Q, tasks = P ++ Q ∧
        (∀ p ∈ P, ∃ st d, firstTerminal env p.2 pfuel 0 = some (st, d) ∧
          res2 p.1 = recordTaskResult st d) ∧
        (∀ p ∈ Q, res2 p.1 = res p.1) ∧
        (Q ≠ [] → ∃ ts, ts < t2 ∧ env.stop ts = true) := by
  intro tasks
  induction tasks with
  | nil =>
    intro t res t2 res2 h _
    simp only [pollPhase, Option.some.injEq, Prod.mk.injEq] at h
    obtain ⟨rfl, rfl⟩ := h
    exact ⟨fun q _ => rfl, [], [], rfl,
      fun p hp => absurd hp (List.not_mem_nil p),
      fun p hp => absurd hp (List.not_mem_nil p),
      fun hne => absurd rfl hne⟩
  | cons pr rest ih =>
    obtain ⟨did, tid⟩ := pr
    intro t res t2 res2 h hnd
    simp only [List.map_cons, List.nodup_cons] at hnd
    unfold pollPhase at h
    by_cases hs : env.stop t
    · rw [if_pos hs] at h
      simp only [Option.some.injEq, Prod.mk.injEq] at h
      obtain ⟨rfl, rfl⟩ := h
      exact ⟨fun q _ => rfl, [], (did, tid) :: rest, rfl,
        fun p hp => absurd hp (List.not_mem_nil p),
        fun p _ => rfl,
        fun _ => ⟨t, by omega, hs⟩⟩
    · rw [if_neg hs] at h
      split at h
      next hp => exact Option.noConfusion h
      next tp st d hp =>
        by_cases hs2 : env.stop tp
        · rw [if_pos hs2] at h
          simp only [Option.some.injEq, Prod.mk.injEq] at h
          obtain ⟨rfl, rfl⟩ := h
          have htp := pollTask_tick hp
          exact ⟨fun q _ => rfl, [], (did, tid) :: rest, rfl,
            fun p hp2 => absurd hp2 (List.not_mem_nil p),
            fun p _ => rfl,
            fun _ => ⟨tp, by omega, hs2⟩⟩
        · rw [if_neg hs2] at h
          obtain ⟨hU, P, Q, hPQ, hP, hQ, hstop⟩ := ih _ _ h hnd.2
          have hgen := pollTask_genuine hmono hp (by simpa using hs2)
          refine ⟨?_, (did, tid) :: P, Q, by rw [hPQ]; rfl, ?_, ?_, hstop⟩
          · intro q hq
            simp only [List.map_cons, List.mem_cons, not_or] at hq
            rw [hU q hq.2, setRes_other hq.1]
          · intro p hpm
            rcases List.mem_cons.mp hpm with rfl | hpm2
            · refine ⟨st, d, hgen, ?_⟩
              rw [hU did hnd.1, setRes_self]
            · exact hP p hpm2
          · intro p hpm
            have hpr : p ∈ rest := by
              rw [hPQ]
              exact List.mem_append.mpr (Or.inr hpm)
            have hne : p.1 ≠ did := by
              intro hh
              exact hnd.1 (hh ▸ List.mem_map_of_mem Prod.fst hpr)
            rw [hQ p hpm, setRes_other hne]

/-- Shape of any completed worker run, for arbitrary stop schedules: the
row list is one mkRow per batch id over the final results, and finalization
leaves no batch id pending. -/
theorem runWorker_shape (env : Env) (pfuel dfuel : Nat) (runTs : String)
    (docIds : List Nat) {res : Nat → DocResult} {rows : List HRow}
    (h : runWorker env pfuel dfuel runTs docIds = some (res, rows)) :
    rows = docIds.map (mkRow env runTs res) ∧
    (∀ did ∈ docIds, (res did).status ≠ .pending) := by
  simp only [runWorker] at h
  split at h
  next hpoll => exact Option.noConfusion h
  next t2 res2 hpoll =>
    simp only [Option.some.injEq, Prod.mk.injEq] at h
    obtain ⟨hres, hrows⟩ := h
    constructor
    · rw [← hrows, ← hres]
    · intro did hd
      rw [← hres]
      exact finalize_total env docIds _ _ hd

/-- C1: for every batch of document ids (no duplicates) and every mix of
submission responses, whenever the reprocess worker returns — the one case
in which it does not is a task the status oracle never reports terminal,
where the source would still be polling — every id of the batch has a
terminal outcome (success or failed, never pending), and the history
archive gains exactly one row per id of the batch, each row carrying a
terminal status string. -/
theorem c1_worker_totality (env : Env) (pfuel dfuel : Nat) (runTs : String)
    (docIds : List Nat) (hnd : docIds.Nodup) (res : Nat → DocResult)
    (rows : List HRow)
    (h : runWorker env pfuel dfuel runTs docIds = some (res, rows)) :
    (∀ did ∈ docIds, (res did).status = .success ∨ (res did).status = .failed) ∧
    rows.length = docIds.length ∧
    (∀ did ∈ docIds, (rows.filter (fun r => r.id == did)).length = 1) ∧
    (∀ r ∈ rows, r.status = "success" ∨ r.status = "failed") := by
  obtain ⟨hrows, htot⟩ := runWorker_shape env pfuel dfuel runTs docIds h
  refine ⟨?_, ?_, ?_, ?_⟩
  · intro did hd
    cases hs : (res did).status with
    | pending => exact absurd hs (htot did hd)
    | success => exact Or.inl rfl
    | failed => exact Or.inr rfl
  · rw [hrows, List.length_map]
  · intro did hd
    rw [hrows, List.filter_map, List.length_map]
    have hpe : ((fun r => r.id == did) ∘ mkRow env runTs res) = fun d => d == did := by
      funext d
      simp [Function.comp, mkRow_id]
    rw [hpe, ← List.countP_eq_length_filter]
    exact List.count_eq_one_of_mem hnd hd
  · intro r hr
    rw [hrows] at hr
    rcases List.mem_map.mp hr with ⟨d, hdmem, rfl⟩
    rw [mkRow_status]
    by_cases hsd : (res d).status = .success
    · rw [if_pos hsd]
      exact Or.inl rfl
    · rw [if_neg hsd]
      exact Or.inr rfl

/-- A run in which everything goes right: id 1 submits to a task that
succeeds, id 2 is accepted bare and shows a content diff, id 3 raises. -/
def c1Env : Env :=
  { stop := fun _ => false
    submit := fun did =>
      if did = 1 then .ok ["task-1"] "" ""
      else if did = 2 then .ok [] " ok " "payload"
      else .exc "boom"
    taskStatus := fun _ _ => ("SUCCESS", "")
    fetchSnap := fun _ _ => some ⟨none, 5, "a.pdf", none⟩
    baseline := fun _ => ⟨none, 3, "a.pdf", none⟩
    baseTitle := fun _ => "t"
    postFetch := fun _ => .ok ("t", 7) }

theorem c1_worker_totality_witness :
    ∃ p, runWorker c1Env 1 1 "ts" [1, 2, 3] = some p ∧
      p.2.length = 3 ∧
      ∀ did ∈ [1, 2, 3], (p.1 did).status = .success ∨ (p.1 did).status = .failed := by
  obtain ⟨res, rows, hrw⟩ :
      ∃ res rows, runWorker c1Env 1 1 "ts" [1, 2, 3] = some (res, rows) := ⟨_, _, rfl⟩
  obtain ⟨h1, h2, h3, h4⟩ :=
    c1_worker_totality c1Env 1 1 "ts" [1, 2, 3] (by decide) res rows hrw
  exact ⟨(res, rows), hrw, h2.trans rfl, h1⟩

/-- Dissection of a completed worker run under a step stop schedule whose
step comes at or after the end of the submission phase (cancellation
signaled only once every id is submitted): every id is reached in phase 1;
the submitted task list splits into a prefix whose terminal task states
were recorded before the stop and are kept verbatim in the final results,
and a suffix of not-yet-resolved ids that all end as
stopped_before_completion; ids resolved at submission time (submit error,
unrecognized payload) keep exactly their submission-time result; bare-OK
ids resolve through the diff phase. -/
theorem runWorker_step_spec (env : Env) (k : Nat)
    (hsched : ∀ t, env.stop t = decide (k ≤ t))
    (pfuel dfuel : Nat) (runTs : String) (docIds : List Nat) (hnd : docIds.Nodup)
    (hk : (submitPhase env docIds 0 (fun _ => ⟨.pending, "not_submitted"⟩) [] []).1 ≤ k)
    {res : Nat → DocResult} {rows : List HRow}
    (h : runWorker env pfuel dfuel runTs docIds = some (res, rows)) :
    ∃ P Q,
      (submitPhase env docIds 0 (fun _ => ⟨.pending, "not_submitted"⟩) [] []).2.2.1
        = P ++ Q ∧
      (∀ p ∈ P, ∃ st d, firstTerminal env p.2 pfuel 0 = some (st, d) ∧
        res p.1 = recordTaskResult st d) ∧
      (∀ p ∈ Q, res p.1 = ⟨.failed, "stopped_before_completion"⟩) ∧
      (∀ did ∈ docIds, taskOf env did = none → bareOk env did = false →
        res did = submitRecord env did) ∧
      (∀ did ∈ docIds, bareOk env did = true →
        res did = ⟨.success, "observed_change_via_diff"⟩ ∨
        res did = ⟨.success, "accepted_no_observed_diff"⟩ ∨
        res did = ⟨.failed, "stopped_before_diff_observation"⟩) := by
  have hmono : ∀ i j, i ≤ j → env.stop i = true → env.stop j = true := by
    intro i j hij hsi
    rw [hsched] at hsi ⊢
    simp only [decide_eq_true_eq] at hsi ⊢
    omega
  simp only [runWorker] at h
  obtain ⟨hst1, hsu, newT, newN, hTeq, hNeq, hTsub, hNsub, hTcl, hNcl, hper⟩ :=
    submitPhase_spec env docIds 0 (fun _ => ⟨.pending, "not_submitted"⟩) [] []
  simp only [List.nil_append] at hTeq hNeq
  split at h
  next hpoll => exact Option.noConfusion h
  next t2 res2 hpoll =>
    rw [hTeq] at hpoll
    obtain ⟨hpt, _, _⟩ := pollPhase_spec hmono newT _ _ hpoll
    have hTnd : (newT.map Prod.fst).Nodup := List.Nodup.sublist hTsub hnd
    obtain ⟨hpu, P, Q, hPQ, hPcl, hQcl, hQstop⟩ :=
      pollPhase_split hmono newT _ _ hpoll hTnd
    simp only [Option.some.injEq, Prod.mk.injEq] at h
    obtain ⟨hres, hrows⟩ := h
    have hreach : ∀ did ∈ docIds,
        (submitPhase env docIds 0 (fun _ => ⟨.pending, "not_submitted"⟩) [] []).2.1 did
          = submitRecord env did ∧
        (∀ tid, taskOf env did = some tid → (did, tid) ∈ newT) ∧
        (taskOf env did = none → did ∉ newT.map Prod.fst) ∧
        (bareOk env did = true → did ∈ newN) ∧
        (bareOk env did = false → did ∉ newN) := by
      intro did hd
      rcases hper hnd did hd with ⟨_, _, _, ts, hts, hsts⟩ | hok2
      · rw [hsched] at hsts
        simp only [decide_eq_true_eq] at hsts
        omega
      · exact hok2
    have hM : ∃ T R, (∀ q, res q = (finalizePhase env docIds T R).2 q) ∧ t2 ≤ T ∧
        ((newN = [] ∧ R = res2) ∨
         (newN ≠ [] ∧
           R = applyDiffResults res2
             (pollNoTaskDiffs env dfuel (newN.map fun d => (d, env.baseline d)) t2).2.1
             (pollNoTaskDiffs env dfuel (newN.map fun d => (d, env.baseline d)) t2).2.2.1
             (pollNoTaskDiffs env dfuel (newN.map fun d => (d, env.baseline d)) t2).2.2.2 ∧
           T = (pollNoTaskDiffs env dfuel (newN.map fun d => (d, env.baseline d)) t2).1)) := by
      rcases newN with _ | ⟨n0, nrest⟩
      · rw [hNeq] at hres
        exact ⟨t2, res2, fun q => by rw [← hres], le_rfl, Or.inl ⟨rfl, rfl⟩⟩
      · rw [hNeq] at hres
        refine ⟨_, _, fun q => by rw [← hres], ?_,
          Or.inr ⟨List.cons_ne_nil n0 nrest, rfl, rfl⟩⟩
        exact pollNoTaskDiffs_tick env dfuel _ t2
    obtain ⟨T, R, hresF, hTt2, hMcase⟩ := hM
    have hRskip : ∀ q, q ∉ newN → R q = res2 q := by
      intro q hq
      rcases hMcase with ⟨_, rfl⟩ | ⟨_, hR, _⟩
      · rfl
      · rw [hR]
        apply applyDiffResults_skip
        · intro hmem
          obtain ⟨base, k2, s, hb, _, _⟩ :=
            pollNoTaskDiffs_obs_sound env dfuel _ t2 q hmem
          obtain ⟨d, hdN, hdq⟩ := List.mem_map.mp hb
          injection hdq with h1 h2
          exact hq (h1 ▸ hdN)
        · intro hmem
          obtain ⟨base, hb⟩ := pollNoTaskDiffs_noDiff_sub env dfuel _ t2 q hmem
          obtain ⟨d, hdN, hdq⟩ := List.mem_map.mp hb
          injection hdq with h1 h2
          exact hq (h1 ▸ hdN)
        · intro hmem
          obtain ⟨base, hb⟩ := pollNoTaskDiffs_stopped_sub env dfuel _ t2 q hmem
          obtain ⟨d, hdN, hdq⟩ := List.mem_map.mp hb
          injection hdq with h1 h2
          exact hq (h1 ▸ hdN)
    refine ⟨P, Q, hTeq.trans hPQ, ?_, ?_, ?_, ?_⟩
    · intro p hpm
      have hpT : p ∈ newT := by
        rw [hPQ]
        exact List.mem_append.mpr (Or.inl hpm)
      obtain ⟨st, d, hft, hrec2⟩ := hPcl p hpm
      have hpd : p.1 ∈ docIds := hTsub.subset (List.mem_map_of_mem Prod.fst hpT)
      obtain ⟨_, _, _, _, c4⟩ := hreach p.1 hpd
      have hbo : bareOk env p.1 = false := (taskOf_some_submitRecord (hTcl p hpT)).2
      have hval : R p.1 = recordTaskResult st d := by
        rw [hRskip p.1 (c4 hbo), hrec2]
      have hnp : (R p.1).status ≠ .pending := by
        rw [hval]
        rcases recordTaskResult_status st d with hc | hc <;> rw [hc] <;>
          intro hcc <;> cases hcc
      refine ⟨st, d, hft, ?_⟩
      rw [hresF p.1, finalize_preserve env docIds T R hnp, hval]
    · intro p hpm
      have hpT : p ∈ newT := by
        rw [hPQ]
        exact List.mem_append.mpr (Or.inr hpm)
      have hpd : p.1 ∈ docIds := hTsub.subset (List.mem_map_of_mem Prod.fst hpT)
      obtain ⟨hrec, _, _, _, c4⟩ := hreach p.1 hpd
      obtain ⟨hsr, hbo⟩ := taskOf_some_submitRecord (hTcl p hpT)
      have hpend : R p.1 = ⟨.pending, "task_id=" ++ p.2⟩ := by
        rw [hRskip p.1 (c4 hbo), hQcl p hpm, hrec, hsr]
      obtain ⟨ts, hts, hsts⟩ := hQstop (by
        intro hc
        rw [hc] at hpm
        cases hpm)
      have hstopT : ∀ s', T ≤ s' → env.stop s' = true := by
        intro s' hs'
        exact hmono ts s' (by omega) hsts
      rw [hresF p.1]
      exact finalize_stopped env docIds T R hstopT hpd (by rw [hpend])
    · intro did hd htk hbo
      obtain ⟨hrec, _, c2, _, c4⟩ := hreach did hd
      have hval : R did = submitRecord env did := by
        rw [hRskip did (c4 hbo), hpu did (c2 htk), hrec]
      have hnp : (R did).status ≠ .pending := by
        rw [hval, submitRecord_noTask_failed htk hbo]
        intro hc
        exact JStatus.noConfusion hc
      rw [hresF did, finalize_preserve env docIds T R hnp, hval]
    · intro did hd hbo
      obtain ⟨rv, raw, hsub, hok⟩ := bareOk_true_elim hbo
      obtain ⟨hrec, _, _, c3, _⟩ := hreach did hd
      have hdN : did ∈ newN := c3 hbo
      rcases hMcase with ⟨hnil, _⟩ | ⟨hne, hR, hT⟩
      · rw [hnil] at hdN
        cases hdN
      · have hpart := pollNoTaskDiffs_partition env dfuel
          (newN.map fun d => (d, env.baseline d)) t2
          (did, env.baseline did)
          (List.mem_map_of_mem (fun d => (d, env.baseline d)) hdN)
        rcases hpart with hobs | hnd2 | hstp
        · have hnonD : did ∉ (pollNoTaskDiffs env dfuel
              (newN.map fun d => (d, env.baseline d)) t2).2.2.1 := by
            intro hmem
            exact pollNoTaskDiffs_noDiff_not_obs env dfuel _ t2 did hmem hobs
          have hnonS : did ∉ (pollNoTaskDiffs env dfuel
              (newN.map fun d => (d, env.baseline d)) t2).2.2.2 := by
            intro hmem
            exact pollNoTaskDiffs_stopped_not_obs env dfuel _ t2 did hmem hobs
          have hval : R did = ⟨.success, "observed_change_via_diff"⟩ := by
            rw [hR]
            exact applyDiffResults_obs hobs hnonD hnonS
          left
          rw [hresF did,
            finalize_preserve env docIds T R (by rw [hval]; intro hc; cases hc), hval]
        · have hnonS : did ∉ (pollNoTaskDiffs env dfuel
              (newN.map fun d => (d, env.baseline d)) t2).2.2.2 := by
            rcases pollNoTaskDiffs_disjoint env dfuel
              (newN.map fun d => (d, env.baseline d)) t2 with hc | hc
            · rw [hc] at hnd2
              cases hnd2
            · rw [hc]
              exact List.not_mem_nil did
          have hval : R did = ⟨.success, "accepted_no_observed_diff"⟩ := by
            rw [hR]
            exact applyDiffResults_noDiff hnd2 hnonS
          right
          left
          rw [hresF did,
            finalize_preserve env docIds T R (by rw [hval]; intro hc; cases hc), hval]
        · have hval : R did = ⟨.failed, "stopped_before_diff_observation"⟩ := by
            rw [hR]
            exact applyDiffResults_stopped hstp
          right
          right
          rw [hresF did,
            finalize_preserve env docIds T R (by rw [hval]; intro hc; cases hc), hval]

/-- C3: cancellation correctness.  (a) If the stop flag is set before any
id is submitted, the worker still returns and every id of the batch
resolves to failure with the deterministic detail
stopped_before_completion.  (b) If the stop flag flips (one way) at a tick
k at or after the end of the submission phase — cancellation signaled
after all submissions — then the submitted task list splits into a prefix
of ids whose task already reached its terminal state before the stop and
which keep exactly that recorded terminal result in the final outcomes,
and a suffix of not-yet-resolved ids that all end in failure with the
stopped_before_completion detail; ids already resolved at submission time
(submit error, unrecognized payload) keep exactly their submission-time
result, and bare-OK ids end in a diff-phase success or the
stopped_before_diff_observation failure.  The stopped details are
distinct from every genuine-failure detail. -/
theorem c3_cancellation (env : Env) (pfuel dfuel : Nat) (runTs : String)
    (docIds : List Nat) (hnd : docIds.Nodup) :
    ((∀ tt, env.stop tt = true) →
      ∃ res rows, runWorker env pfuel dfuel runTs docIds = some (res, rows) ∧
        ∀ did ∈ docIds, res did = ⟨.failed, "stopped_before_completion"⟩) ∧
    (∀ k, (∀ t, env.stop t = decide (k ≤ t)) →
      (submitPhase env docIds 0 (fun _ => ⟨.pending, "not_submitted"⟩) [] []).1 ≤ k →
      ∀ res rows, runWorker env pfuel dfuel runTs docIds = some (res, rows) →
      ∃ P Q,
        (submitPhase env docIds 0 (fun _ => ⟨.pending, "not_submitted"⟩) [] []).2.2.1
          = P ++ Q ∧
        (∀ p ∈ P, ∃ st d, firstTerminal env p.2 pfuel 0 = some (st, d) ∧
          res p.1 = recordTaskResult st d) ∧
        (∀ p ∈ Q, res p.1 = ⟨.failed, "stopped_before_completion"⟩) ∧
        (∀ did ∈ docIds, taskOf env did = none → bareOk env did = false →
          res did = submitRecord env did) ∧
        (∀ did ∈ docIds, bareOk env did = true →
          res did = ⟨.success, "observed_change_via_diff"⟩ ∨
          res did = ⟨.success, "accepted_no_observed_diff"⟩ ∨
          res did = ⟨.failed, "stopped_before_diff_observation"⟩)) := by
  constructor
  · intro hall
    cases docIds with
    | nil =>
      exact ⟨_, _, rfl, fun did hd => absurd hd (List.not_mem_nil did)⟩
    | cons did0 rest =>
      have hs1 : submitPhase env (did0 :: rest) 0
          (fun _ => ⟨.pending, "not_submitted"⟩) [] []
          = (1, fun _ => ⟨.pending, "not_submitted"⟩, [], []) := by
        simp only [submitPhase]
        rw [if_pos (hall 0)]
      have hrw : runWorker env pfuel dfuel runTs (did0 :: rest)
          = some ((finalizePhase env (did0 :: rest) 1
                (fun _ => ⟨.pending, "not_submitted"⟩)).2,
              (did0 :: rest).map (mkRow env runTs
                (finalizePhase env (did0 :: rest) 1
                  (fun _ => ⟨.pending, "not_submitted"⟩)).2)) := by
        simp only [runWorker]
        rw [hs1]
        rfl
      refine ⟨_, _, hrw, ?_⟩
      intro did hd
      exact finalize_stopped env (did0 :: rest) 1 _ (fun s' _ => hall s') hd rfl
  · intro k hsched hk res rows h
    exact runWorker_step_spec env k hsched pfuel dfuel runTs docIds hnd hk h

/-- A worker environment whose stop flag is set from the very first tick. -/
def c3EnvAll : Env :=
  { stop := fun _ => true
    submit := fun _ => .exc "never reached"
    taskStatus := fun _ _ => ("SUCCESS", "")
    fetchSnap := fun _ _ => none
    baseline := fun _ => ⟨none, 0, "", none⟩
    baseTitle := fun _ => ""
    postFetch := fun _ => .error "e" }

/-- A worker environment whose stop flag flips at tick 5: both ids submit
to tasks (ticks 0 and 1), task a of id 1 is polled terminal SUCCESS and
recorded before tick 5, and the stop is then observed before id 2's task
is polled, leaving id 2 unresolved. -/
def c3EnvStep : Env :=
  { stop := fun t => decide (5 ≤ t)
    submit := fun did => if did = 1 then .ok ["a"] "" "" else .ok ["b"] "" ""
    taskStatus := fun _ _ => ("SUCCESS", "")
    fetchSnap := fun _ _ => none
    baseline := fun _ => ⟨none, 0, "", none⟩
    baseTitle := fun _ => ""
    postFetch := fun _ => .error "e" }

theorem c3_cancellation_witness :
    (∃ res rows, runWorker c3EnvAll 1 1 "ts" [1, 2] = some (res, rows) ∧
      ∀ did ∈ [1, 2], res did = ⟨.failed, "stopped_before_completion"⟩) ∧
    (∃ res rows, runWorker c3EnvStep 1 1 "ts" [1, 2] = some (res, rows) ∧
      ∃ P Q, (submitPhase c3EnvStep [1, 2] 0
          (fun _ => ⟨.pending, "not_submitted"⟩) [] []).2.2.1 = P ++ Q ∧
        (∀ p ∈ P, ∃ st d, firstTerminal c3EnvStep p.2 1 0 = some (st, d) ∧
          res p.1 = recordTaskResult st d) ∧
        (∀ p ∈ Q, res p.1 = ⟨.failed, "stopped_before_completion"⟩)) := by
  constructor
  · exact (c3_cancellation c3EnvAll 1 1 "ts" [1, 2] (by decide)).1 (fun _ => rfl)
  · obtain ⟨res, rows, hrw⟩ :
        ∃ res rows, runWorker c3EnvStep 1 1 "ts" [1, 2] = some (res, rows) :=
      ⟨_, _, rfl⟩
    obtain ⟨P, Q, hPQ, hP, hQ, _, _⟩ :=
      (c3_cancellation c3EnvStep 1 1 "ts" [1, 2] (by decide)).2 5 (fun _ => rfl)
        (by decide) res rows hrw
    exact ⟨res, rows, hrw, P, Q, hPQ, hP, hQ⟩

/-- C4: the diff-poll fallback for an id accepted with a bare OK and no
task id, under a run in which cancellation is never signaled: if no fetch
of its four-field snapshot ever differs from the baseline, the id resolves
to success with the accepted-no-observable-diff detail (never failure);
and if the very first diff fetch already differs in some field (and the
ceiling admits at least one iteration), the id resolves to success with
the observed-change detail. -/
theorem c4_diff_poll_fallback (env : Env) (hstop : ∀ tt, env.stop tt = false)
    (pfuel dfuel : Nat) (runTs : String) (docIds : List Nat) (hnd : docIds.Nodup)
    (res : Nat → DocResult) (rows : List HRow)
    (h : runWorker env pfuel dfuel runTs docIds = some (res, rows))
    (did : Nat) (hd : did ∈ docIds) (rv raw : String)
    (hsub : env.submit did = .ok [] rv raw)
    (hok : pyUpper (pyStrip rv) = "OK") :
    ((∀ k s, env.fetchSnap did k = some s → s = env.baseline did) →
      res did = ⟨.success, "accepted_no_observed_diff"⟩) ∧
    (∀ d0 s, dfuel = d0 + 1 → env.fetchSnap did 0 = some s →
      s ≠ env.baseline did →
      res did = ⟨.success, "observed_change_via_diff"⟩) := by
  have hmono : ∀ i j, i ≤ j → env.stop i = true → env.stop j = true := by
    intro i j hij hsi
    rw [hstop i] at hsi
    exact Bool.noConfusion hsi
  obtain ⟨_, _, hcase⟩ := runWorker_spec env hmono pfuel dfuel runTs docIds hnd h
  rcases hcase did hd with ⟨_, ts, hsts⟩ | hreach
  · rw [hstop ts] at hsts
    exact Bool.noConfusion hsts
  · simp only [reachedOutcome, hsub, if_pos hok] at hreach
    obtain ⟨nt, t0, hdnt, hfate⟩ := hreach
    unfold diffFate at hfate
    constructor
    · intro hnever
      rcases hfate with ⟨hobs, _⟩ | ⟨_, hval⟩ | ⟨hstp, _⟩
      · obtain ⟨base, k, s, hb, hf, hne⟩ :=
          pollNoTaskDiffs_obs_sound env dfuel _ t0 did hobs
        obtain ⟨dd, hddnt, hddq⟩ := List.mem_map.mp hb
        injection hddq with h1 h2
        subst h1
        exact absurd ((hnever k s hf).trans h2) hne
      · exact hval
      · rw [pollNoTaskDiffs_nostop_stopped_nil env hstop dfuel _ t0] at hstp
        cases hstp
    · intro d0 s hdf hf hne
      subst hdf
      have hobs : did ∈ (pollNoTaskDiffs env (d0 + 1)
          (nt.map fun d => (d, env.baseline d)) t0).2.1 :=
        pollNoTaskDiffs_first_obs env hstop d0 _ t0
          (List.mem_map_of_mem (fun d => (d, env.baseline d)) hdnt) hf hne
      rcases hfate with ⟨_, hval⟩ | ⟨hnd2, _⟩ | ⟨hstp, _⟩
      · exact hval
      · exact absurd hobs (pollNoTaskDiffs_noDiff_not_obs env (d0 + 1) _ t0 did hnd2)
      · rw [pollNoTaskDiffs_nostop_stopped_nil env hstop (d0 + 1) _ t0] at hstp
        cases hstp

/-- A bare-OK acceptance whose very first diff fetch shows a larger
content length. -/
def c4Env : Env :=
  { stop := fun _ => false
    submit := fun _ => .ok [] "ok" "r"
    taskStatus := fun _ _ => ("PENDING", "")
    fetchSnap := fun _ _ => some ⟨none, 9, "b", none⟩
    baseline := fun _ => ⟨none, 1, "b", none⟩
    baseTitle := fun _ => "T"
    postFetch := fun _ => .error "e" }

theorem c4_diff_poll_fallback_witness :
    ∃ res rows, runWorker c4Env 1 1 "ts" [5] = some (res, rows) ∧
      res 5 = ⟨.success, "observed_change_via_diff"⟩ := by
  obtain ⟨res, rows, hrw⟩ :
      ∃ res rows, runWorker c4Env 1 1 "ts" [5] = some (res, rows) := ⟨_, _, rfl⟩
  refine ⟨res, rows, hrw, ?_⟩
  exact (c4_diff_poll_fallback c4Env (fun _ => rfl) 1 1 "ts" [5] (by decide)
    res rows hrw 5 (by decide) "ok" "r" rfl (by decide)).2
    0 ⟨none, 9, "b", none⟩ rfl rfl (by decide)

end Paperflow
